import Mathlib

/-!
# Verification of the bleurgh CLI setup subsystem

A shallow embedding of `src/setup.ts`: the configuration codec
(`encodeSetupString` / `decodeSetupString`), the layered security validation
pipeline (`validateSetupConfig`, `validateExportCommands`), the command
synthesizer (`generateExportCommands`), the environment diff engine
(`analyzeSetupChanges`), the shell-file writer (`writeToShellConfig`) and the
orchestrator (`executeSetup`).

Strings are modelled as `List Char` (`Str`).  Byte-level operations
(UTF-8, base64) work on `List Nat` with values below 256.  The external
`shescape` escaping engine is not part of the repository; it is modelled from
the specification (see `escapeForFamily`).
-/

set_option maxHeartbeats 1000000
set_option maxRecDepth 2048

namespace Bleurgh

/-- Strings of the embedded program, modelled as lists of characters. -/
abbrev Str := List Char

/-- Coerce a Lean string literal into the embedded string type. -/
def lit (s : String) : Str := s.data

/-- Character membership in a string, `value.includes(c)` on a single char. -/
def strHasChar (s : Str) (c : Char) : Bool := s.any (fun d => d = c)

/-- JS `hay.includes(needle)`: substring containment. -/
def containsSubstr (hay needle : Str) : Bool :=
  if needle.isPrefixOf hay then true
  else
    match hay with
    | [] => false
    | _ :: t => containsSubstr t needle

/-- JS `hay.startsWith(pre)`. -/
def strStarts (hay pre : Str) : Bool := pre.isPrefixOf hay

/-- JS `hay.endsWith(suf)`. -/
def strEnds (hay suf : Str) : Bool := suf.reverse.isPrefixOf hay.reverse

/-- The whitespace class of JavaScript (`\s` in regexes and `String.trim`). -/
def jsSpace (c : Char) : Bool :=
  let n := c.toNat
  n = 32 || n = 9 || n = 10 || n = 11 || n = 12 || n = 13 ||
  n = 0xA0 || n = 0x1680 || (0x2000 ≤ n && n ≤ 0x200A) ||
  n = 0x2028 || n = 0x2029 || n = 0x202F || n = 0x205F || n = 0x3000 || n = 0xFEFF

/-- JS `String.prototype.trim`. -/
def jsTrim (s : Str) : Str :=
  ((s.dropWhile jsSpace).reverse.dropWhile jsSpace).reverse

/-- Line terminators, which `.` does not match in a JavaScript regex. -/
def lineTerm (c : Char) : Bool :=
  c.toNat = 10 || c.toNat = 13 || c.toNat = 0x2028 || c.toNat = 0x2029

/-- JS `String.prototype.split` on a single separator character. -/
def splitOnChar (sep : Char) : Str → List Str
  | [] => [[]]
  | c :: rest =>
    if c = sep then [] :: splitOnChar sep rest
    else
      match splitOnChar sep rest with
      | [] => [[c]]
      | h :: t => (c :: h) :: t

/-- `parts.join(sep)`. -/
def joinWith (sep : Char) (parts : List Str) : Str := List.intercalate [sep] parts

/-- Join a list of strings with the string `", "`, as `errors.join(', ')`. -/
def joinCommaSpace (parts : List Str) : Str := List.intercalate (lit ", ") parts

/-- Uppercase basic-Latin letter. -/
def isUpperAZ (c : Char) : Bool := 'A' ≤ c && c ≤ 'Z'

/-- Lowercase basic-Latin letter. -/
def isLowerAZ (c : Char) : Bool := 'a' ≤ c && c ≤ 'z'

/-- Decimal digit. -/
def isDigit09 (c : Char) : Bool := '0' ≤ c && c ≤ '9'

/-- First character of the `[A-Z_][A-Z0-9_]*` identifier rule. -/
def envNameStart (c : Char) : Bool := isUpperAZ c || c = '_'

/-- Subsequent characters of the `[A-Z_][A-Z0-9_]*` identifier rule. -/
def envNameChar (c : Char) : Bool := isUpperAZ c || isDigit09 c || c = '_'

/-- The regex `/^[A-Z_][A-Z0-9_]*$/` from `validateSetupConfig`. -/
def regexEnvName (s : Str) : Bool :=
  match s with
  | [] => false
  | c :: rest => envNameStart c && rest.all envNameChar

/-! ## Base64 (Node `Buffer` semantics)

`Buffer.from(s, 'base64')` ignores characters outside the base64 alphabet
(accepting the URL-safe variants `-` and `_`), stops at padding, and decodes
incomplete trailing groups to as many whole bytes as are available.
`buf.toString('base64')` emits standard padded base64. -/

/-- The value of one base64 alphabet character, `none` for characters the
decoder skips. -/
def b64Val (c : Char) : Option Nat :=
  if 'A' ≤ c && c ≤ 'Z' then some (c.toNat - 65)
  else if 'a' ≤ c && c ≤ 'z' then some (c.toNat - 97 + 26)
  else if '0' ≤ c && c ≤ '9' then some (c.toNat - 48 + 52)
  else if c = '+' then some 62
  else if c = '/' then some 63
  else if c = '-' then some 62
  else if c = '_' then some 63
  else none

/-- The base64 alphabet character for a 6-bit value. -/
def b64Char (i : Nat) : Char :=
  if i < 26 then Char.ofNat (65 + i)
  else if i < 52 then Char.ofNat (97 + (i - 26))
  else if i < 62 then Char.ofNat (48 + (i - 52))
  else if i = 62 then '+'
  else '/'

/-- Collect the 6-bit groups of a base64 text, skipping foreign characters
and stopping at the first padding character. -/
def b64Sextets : Str → List Nat
  | [] => []
  | c :: rest =>
    if c = '=' then []
    else
      match b64Val c with
      | some v => v :: b64Sextets rest
      | none => b64Sextets rest

/-- Reassemble bytes from 6-bit groups; a trailing group of one sextet
carries no whole byte. -/
def sextetsToBytes : List Nat → List Nat
  | v0 :: v1 :: v2 :: v3 :: rest =>
    (v0 * 4 + v1 / 16) :: ((v1 % 16) * 16 + v2 / 4) :: ((v2 % 4) * 64 + v3) ::
      sextetsToBytes rest
  | [v0, v1] => [v0 * 4 + v1 / 16]
  | [v0, v1, v2] => [v0 * 4 + v1 / 16, (v1 % 16) * 16 + v2 / 4]
  | _ => []

/-- `Buffer.from(s, 'base64')`. -/
def decodeB64 (s : Str) : List Nat := sextetsToBytes (b64Sextets s)

/-- `buf.toString('base64')`: standard padded base64 of a byte list. -/
def encodeB64 : List Nat → Str
  | [] => []
  | [b0] => [b64Char (b0 / 4), b64Char (b0 % 4 * 16), '=', '=']
  | [b0, b1] => [b64Char (b0 / 4), b64Char (b0 % 4 * 16 + b1 / 16),
      b64Char (b1 % 16 * 4), '=']
  | b0 :: b1 :: b2 :: rest =>
    b64Char (b0 / 4) :: b64Char (b0 % 4 * 16 + b1 / 16) ::
      b64Char (b1 % 16 * 4 + b2 / 64) :: b64Char (b2 % 64) :: encodeB64 rest

theorem b64Char_ne_eq (x : Nat) (hx : x < 64) : b64Char x ≠ '=' := by
  revert x; decide

theorem b64Val_b64Char (x : Nat) (hx : x < 64) : b64Val (b64Char x) = some x := by
  revert x; decide

theorem b64Sextets_char (x : Nat) (hx : x < 64) (l : Str) :
    b64Sextets (b64Char x :: l) = x :: b64Sextets l := by
  simp [b64Sextets, b64Char_ne_eq x hx, b64Val_b64Char x hx]

theorem decodeB64_encodeB64 :
    ∀ bs : List Nat, (∀ b ∈ bs, b < 256) → decodeB64 (encodeB64 bs) = bs
  | [], _ => rfl
  | [b0], h => by
    have hb0 : b0 < 256 := h b0 (by simp)
    have h1 : b0 / 4 < 64 := by omega
    have h2 : b0 % 4 * 16 < 64 := by omega
    simp only [encodeB64, decodeB64, b64Sextets_char _ h1, b64Sextets_char _ h2]
    simp only [b64Sextets, if_pos rfl, sextetsToBytes, List.cons.injEq, and_true]
    omega
  | [b0, b1], h => by
    have hb0 : b0 < 256 := h b0 (by simp)
    have hb1 : b1 < 256 := h b1 (by simp)
    have h1 : b0 / 4 < 64 := by omega
    have h2 : b0 % 4 * 16 + b1 / 16 < 64 := by omega
    have h3 : b1 % 16 * 4 < 64 := by omega
    simp only [encodeB64, decodeB64, b64Sextets_char _ h1, b64Sextets_char _ h2,
      b64Sextets_char _ h3]
    simp only [b64Sextets, if_pos rfl, sextetsToBytes, List.cons.injEq, and_true]
    exact ⟨by omega, by omega⟩
  | b0 :: b1 :: b2 :: b3 :: rest, h => by
    have hb0 : b0 < 256 := h b0 (by simp)
    have hb1 : b1 < 256 := h b1 (by simp)
    have hb2 : b2 < 256 := h b2 (by simp)
    have h1 : b0 / 4 < 64 := by omega
    have h2 : b0 % 4 * 16 + b1 / 16 < 64 := by omega
    have h3 : b1 % 16 * 4 + b2 / 64 < 64 := by omega
    have h4 : b2 % 64 < 64 := by omega
    have ih := decodeB64_encodeB64 (b3 :: rest) (by intro b hb; exact h b (by simp_all))
    simp only [encodeB64, decodeB64, b64Sextets_char _ h1, b64Sextets_char _ h2,
      b64Sextets_char _ h3, b64Sextets_char _ h4, sextetsToBytes, List.cons.injEq]
    refine ⟨by omega, by omega, by omega, ?_⟩
    simpa [decodeB64] using ih
  | [b0, b1, b2], h => by
    have hb0 : b0 < 256 := h b0 (by simp)
    have hb1 : b1 < 256 := h b1 (by simp)
    have hb2 : b2 < 256 := h b2 (by simp)
    have h1 : b0 / 4 < 64 := by omega
    have h2 : b0 % 4 * 16 + b1 / 16 < 64 := by omega
    have h3 : b1 % 16 * 4 + b2 / 64 < 64 := by omega
    have h4 : b2 % 64 < 64 := by omega
    simp only [encodeB64, decodeB64, b64Sextets_char _ h1, b64Sextets_char _ h2,
      b64Sextets_char _ h3, b64Sextets_char _ h4]
    simp only [b64Sextets, sextetsToBytes, List.cons.injEq, and_true]
    and_intros <;> omega

/-! ## UTF-8

`Buffer.from(s, 'utf-8')` encodes the text; `buf.toString('utf-8')` decodes,
replacing malformed sequences with U+FFFD in the WHATWG style. -/

/-- UTF-8 encoding of one scalar value. -/
def utf8EncodeChar (c : Char) : List Nat :=
  let n := c.toNat
  if n < 0x80 then [n]
  else if n < 0x800 then [0xC0 + n / 64, 0x80 + n % 64]
  else if n < 0x10000 then [0xE0 + n / 4096, 0x80 + n / 64 % 64, 0x80 + n % 64]
  else [0xF0 + n / 262144, 0x80 + n / 4096 % 64, 0x80 + n / 64 % 64, 0x80 + n % 64]

/-- UTF-8 encoding of a text. -/
def utf8Encode : Str → List Nat
  | [] => []
  | c :: rest => utf8EncodeChar c ++ utf8Encode rest

/-- U+FFFD, emitted for malformed input. -/
def replacementChar : Char := Char.ofNat 0xFFFD

/-- UTF-8 decoding with U+FFFD replacement of malformed sequences. -/
def utf8Decode : List Nat → Str
  | [] => []
  | b :: bs =>
    if b < 0x80 then Char.ofNat b :: utf8Decode bs
    else if 0xC2 ≤ b ∧ b ≤ 0xDF then
      match bs with
      | [] => [replacementChar]
      | b1 :: bs1 =>
        if 0x80 ≤ b1 ∧ b1 ≤ 0xBF then
          Char.ofNat ((b - 0xC0) * 64 + (b1 - 0x80)) :: utf8Decode bs1
        else replacementChar :: utf8Decode (b1 :: bs1)
    else if 0xE0 ≤ b ∧ b ≤ 0xEF then
      match bs with
      | [] => [replacementChar]
      | b1 :: bs1 =>
        if (if b = 0xE0 then 0xA0 else 0x80) ≤ b1 ∧
            b1 ≤ (if b = 0xED then 0x9F else 0xBF) then
          match bs1 with
          | [] => [replacementChar]
          | b2 :: bs2 =>
            if 0x80 ≤ b2 ∧ b2 ≤ 0xBF then
              Char.ofNat ((b - 0xE0) * 4096 + (b1 - 0x80) * 64 + (b2 - 0x80)) ::
                utf8Decode bs2
            else replacementChar :: utf8Decode (b2 :: bs2)
        else replacementChar :: utf8Decode (b1 :: bs1)
    else if 0xF0 ≤ b ∧ b ≤ 0xF4 then
      match bs with
      | [] => [replacementChar]
      | b1 :: bs1 =>
        if (if b = 0xF0 then 0x90 else 0x80) ≤ b1 ∧
            b1 ≤ (if b = 0xF4 then 0x8F else 0xBF) then
          match bs1 with
          | [] => [replacementChar]
          | b2 :: bs2 =>
            if 0x80 ≤ b2 ∧ b2 ≤ 0xBF then
              match bs2 with
              | [] => [replacementChar]
              | b3 :: bs3 =>
                if 0x80 ≤ b3 ∧ b3 ≤ 0xBF then
                  Char.ofNat ((b - 0xF0) * 262144 + (b1 - 0x80) * 4096 +
                      (b2 - 0x80) * 64 + (b3 - 0x80)) :: utf8Decode bs3
                else replacementChar :: utf8Decode (b3 :: bs3)
            else replacementChar :: utf8Decode (b2 :: bs2)
        else replacementChar :: utf8Decode (b1 :: bs1)
    else replacementChar :: utf8Decode bs

theorem utf8EncodeChar_lt (c : Char) : ∀ b ∈ utf8EncodeChar c, b < 256 := by
  intro b hb
  have hv : c.toNat < 0xD800 ∨ (0xE000 ≤ c.toNat ∧ c.toNat < 0x110000) := c.valid
  simp only [utf8EncodeChar] at hb
  split at hb <;> [skip; split at hb] <;> [skip; skip; split at hb] <;>
    simp_all <;> omega

theorem utf8Encode_lt (s : Str) : ∀ b ∈ utf8Encode s, b < 256 := by
  induction s with
  | nil => simp [utf8Encode]
  | cons c rest ih =>
    intro b hb
    simp only [utf8Encode, List.mem_append] at hb
    rcases hb with hb | hb
    · exact utf8EncodeChar_lt c b hb
    · exact ih b hb

theorem utf8Decode_encodeChar (c : Char) (bs : List Nat) :
    utf8Decode (utf8EncodeChar c ++ bs) = c :: utf8Decode bs := by
  have hv : c.toNat < 0xD800 ∨ (0xE000 ≤ c.toNat ∧ c.toNat < 0x110000) := c.valid
  by_cases h1 : c.toNat < 0x80
  · simp only [utf8EncodeChar, if_pos h1, List.cons_append, List.nil_append]
    rw [utf8Decode.eq_def]
    simp only []
    rw [if_pos h1, Char.ofNat_toNat]
  · by_cases h2 : c.toNat < 0x800
    · simp only [utf8EncodeChar, if_neg h1, if_pos h2, List.cons_append, List.nil_append]
      rw [utf8Decode.eq_def]
      simp only []
      rw [if_neg (by omega), if_pos (by omega : 0xC2 ≤ 0xC0 + c.toNat / 64 ∧
        0xC0 + c.toNat / 64 ≤ 0xDF)]
      rw [if_pos (by omega : 0x80 ≤ 0x80 + c.toNat % 64 ∧ 0x80 + c.toNat % 64 ≤ 0xBF)]
      have harith : (0xC0 + c.toNat / 64 - 0xC0) * 64 + (0x80 + c.toNat % 64 - 0x80)
          = c.toNat := by omega
      rw [harith, Char.ofNat_toNat]
    · by_cases h3 : c.toNat < 0x10000
      · have hs : c.toNat < 0xD800 ∨ 0xE000 ≤ c.toNat := by omega
        simp only [utf8EncodeChar, if_neg h1, if_neg h2, if_pos h3, List.cons_append,
          List.nil_append]
        rw [utf8Decode.eq_def]
        simp only []
        rw [if_neg (by omega), if_neg (by omega), if_pos
          (by omega : 0xE0 ≤ 0xE0 + c.toNat / 4096 ∧ 0xE0 + c.toNat / 4096 ≤ 0xEF)]
        rw [if_pos ?hcont]
        case hcont =>
          constructor
          · split
            · next heq =>
              have : c.toNat / 4096 = 0 := by omega
              have : c.toNat < 0x1000 := by omega
              omega
            · omega
          · split
            · next heq =>
              have : c.toNat / 4096 = 13 := by omega
              have hlow : 0xD000 ≤ c.toNat := by omega
              have hhigh : c.toNat ≤ 0xD7FF := by omega
              omega
            · omega
        rw [if_pos (by omega : 0x80 ≤ 0x80 + c.toNat % 64 ∧ 0x80 + c.toNat % 64 ≤ 0xBF)]
        have harith : (0xE0 + c.toNat / 4096 - 0xE0) * 4096 +
            (0x80 + c.toNat / 64 % 64 - 0x80) * 64 + (0x80 + c.toNat % 64 - 0x80)
            = c.toNat := by omega
        rw [harith, Char.ofNat_toNat]
      · have h4 : c.toNat < 0x110000 := by omega
        simp only [utf8EncodeChar, if_neg h1, if_neg h2, if_neg h3, List.cons_append,
          List.nil_append]
        rw [utf8Decode.eq_def]
        simp only []
        rw [if_neg (by omega), if_neg (by omega), if_neg (by omega), if_pos
          (by omega : 0xF0 ≤ 0xF0 + c.toNat / 262144 ∧ 0xF0 + c.toNat / 262144 ≤ 0xF4)]
        rw [if_pos ?hcont4]
        case hcont4 =>
          constructor
          · split
            · next heq =>
              have : c.toNat / 262144 = 0 := by omega
              have : c.toNat < 0x40000 := by omega
              omega
            · omega
          · split
            · next heq =>
              have : c.toNat / 262144 = 4 := by omega
              have : 0x100000 ≤ c.toNat := by omega
              omega
            · omega
        rw [if_pos (by omega : 0x80 ≤ 0x80 + c.toNat / 64 % 64 ∧
          0x80 + c.toNat / 64 % 64 ≤ 0xBF)]
        rw [if_pos (by omega : 0x80 ≤ 0x80 + c.toNat % 64 ∧ 0x80 + c.toNat % 64 ≤ 0xBF)]
        have harith : (0xF0 + c.toNat / 262144 - 0xF0) * 262144 +
            (0x80 + c.toNat / 4096 % 64 - 0x80) * 4096 +
            (0x80 + c.toNat / 64 % 64 - 0x80) * 64 + (0x80 + c.toNat % 64 - 0x80)
            = c.toNat := by omega
        rw [harith, Char.ofNat_toNat]

theorem utf8Decode_utf8Encode (s : Str) : utf8Decode (utf8Encode s) = s := by
  induction s with
  | nil => rfl
  | cons c rest ih =>
    rw [utf8Encode, utf8Decode_encodeChar, ih]

/-! ## JSON

`JSON.stringify(config, null, 0)` on a flat object of string values, and a
full `JSON.parse`.  Parsed numbers keep their source lexeme (their numeric
value is never consumed by this subsystem).  A `\uXXXX` escape denoting a
lone UTF-16 surrogate — which a JS string could hold but a Lean `Char`
cannot — is modelled as U+FFFD; no value handled by the claims contains one. -/

/-- JSON values as produced by `JSON.parse`. -/
inductive Json where
  | null : Json
  | bool (b : Bool) : Json
  | num (lexeme : Str) : Json
  | str (s : Str) : Json
  | arr (elems : List Json) : Json
  | obj (members : List (Str × Json)) : Json
deriving Repr, Inhabited

/-- Lowercase hexadecimal digit, as emitted by `JSON.stringify` escapes. -/
def hexDigitChar (n : Nat) : Char :=
  if n < 10 then Char.ofNat (48 + n) else Char.ofNat (97 + (n - 10))

/-- The escape `JSON.stringify` applies to one character inside a string. -/
def jsonEscapeChar (c : Char) : Str :=
  if c = '"' then ['\\', '"']
  else if c = '\\' then ['\\', '\\']
  else if c.toNat = 8 then ['\\', 'b']
  else if c.toNat = 9 then ['\\', 't']
  else if c.toNat = 10 then ['\\', 'n']
  else if c.toNat = 12 then ['\\', 'f']
  else if c.toNat = 13 then ['\\', 'r']
  else if c.toNat < 32 then
    ['\\', 'u', '0', '0', hexDigitChar (c.toNat / 16), hexDigitChar (c.toNat % 16)]
  else [c]

/-- `JSON.stringify` escaping of a whole string body. -/
def jsonEscapeStr : Str → Str
  | [] => []
  | c :: rest => jsonEscapeChar c ++ jsonEscapeStr rest

/-- A JSON string literal. -/
def jsonQuote (s : Str) : Str := '"' :: jsonEscapeStr s ++ ['"']

/-- One `"key":"value"` member. -/
def memberStr (kv : Str × Str) : Str := jsonQuote kv.1 ++ ':' :: jsonQuote kv.2

/-- Comma-joined members. -/
def membersStr : List (Str × Str) → Str
  | [] => []
  | kv :: rest =>
    memberStr kv ++
      (match rest with
      | [] => []
      | _ :: _ => ',' :: membersStr rest)

/-- `JSON.stringify(config, null, 0)` for a flat object of string values. -/
def jsonStringify (cfg : List (Str × Str)) : Str :=
  '{' :: membersStr cfg ++ ['}']

/-- JSON insignificant whitespace. -/
def jsonWs (c : Char) : Bool := c = ' ' || c = '\t' || c = '\n' || c = '\r'

/-- Hexadecimal digit value. -/
def parseHexDigit (c : Char) : Option Nat :=
  if '0' ≤ c && c ≤ '9' then some (c.toNat - 48)
  else if 'a' ≤ c && c ≤ 'f' then some (c.toNat - 97 + 10)
  else if 'A' ≤ c && c ≤ 'F' then some (c.toNat - 65 + 10)
  else none

/-- One lexing step inside a JSON string body: the closing quote, one
decoded character, or a lexical error. -/
inductive StrTok where
  | done (rest : Str)
  | chr (c : Char) (rest : Str)
  | fail

/-- Decode a `\u` escape (with surrogate-pair lookahead into `rest2`). -/
def uStep (h1 h2 h3 h4 : Char) (rest2 : Str) : StrTok :=
  match parseHexDigit h1, parseHexDigit h2, parseHexDigit h3, parseHexDigit h4 with
  | some d1, some d2, some d3, some d4 =>
    if 0xD800 ≤ d1 * 4096 + d2 * 256 + d3 * 16 + d4 ∧
        d1 * 4096 + d2 * 256 + d3 * 16 + d4 ≤ 0xDBFF then
      match rest2 with
      | '\\' :: 'u' :: g1 :: g2 :: g3 :: g4 :: rest3 =>
        match parseHexDigit g1, parseHexDigit g2, parseHexDigit g3,
            parseHexDigit g4 with
        | some e1, some e2, some e3, some e4 =>
          if 0xDC00 ≤ e1 * 4096 + e2 * 256 + e3 * 16 + e4 ∧
              e1 * 4096 + e2 * 256 + e3 * 16 + e4 ≤ 0xDFFF then
            .chr (Char.ofNat (0x10000 +
              (d1 * 4096 + d2 * 256 + d3 * 16 + d4 - 0xD800) * 1024 +
              (e1 * 4096 + e2 * 256 + e3 * 16 + e4 - 0xDC00))) rest3
          else .chr replacementChar rest2
        | _, _, _, _ => .chr replacementChar rest2
      | _ => .chr replacementChar rest2
    else if 0xDC00 ≤ d1 * 4096 + d2 * 256 + d3 * 16 + d4 ∧
        d1 * 4096 + d2 * 256 + d3 * 16 + d4 ≤ 0xDFFF then .chr replacementChar rest2
    else .chr (Char.ofNat (d1 * 4096 + d2 * 256 + d3 * 16 + d4)) rest2
  | _, _, _, _ => .fail

theorem uStep_length (h1 h2 h3 h4 : Char) (rest2 : Str) (c : Char) (rest : Str)
    (h : uStep h1 h2 h3 h4 rest2 = .chr c rest) : rest.length ≤ rest2.length := by
  unfold uStep at h
  split at h
  all_goals try split_ifs at h
  all_goals try split at h
  all_goals try split at h
  all_goals try split_ifs at h
  all_goals try exact StrTok.noConfusion h
  all_goals injection h with hc hr
  all_goals subst hr
  all_goals try subst_eqs
  all_goals try simp only [List.length_cons]
  all_goals omega

/-- Decode one character (or the closing quote) of a JSON string body. -/
def strTokStep : Str → StrTok
  | [] => .fail
  | '"' :: rest => .done rest
  | '\\' :: '"' :: rest => .chr '"' rest
  | '\\' :: '\\' :: rest => .chr '\\' rest
  | '\\' :: '/' :: rest => .chr '/' rest
  | '\\' :: 'b' :: rest => .chr (Char.ofNat 8) rest
  | '\\' :: 'f' :: rest => .chr (Char.ofNat 12) rest
  | '\\' :: 'n' :: rest => .chr '\n' rest
  | '\\' :: 'r' :: rest => .chr (Char.ofNat 13) rest
  | '\\' :: 't' :: rest => .chr '\t' rest
  | '\\' :: 'u' :: h1 :: h2 :: h3 :: h4 :: rest2 => uStep h1 h2 h3 h4 rest2
  | '\\' :: _ => .fail
  | c :: rest => if c.toNat < 32 then .fail else .chr c rest

theorem strTokStep_length (s : Str) (c : Char) (rest : Str)
    (h : strTokStep s = .chr c rest) : rest.length < s.length := by
  rw [strTokStep.eq_def] at h
  split at h <;> (try split_ifs at h)
  all_goals try exact StrTok.noConfusion h
  all_goals try (injection h with hc hr; subst hr)
  all_goals try (have hu := uStep_length _ _ _ _ _ _ _ h)
  all_goals try subst_eqs
  all_goals try simp only [List.length_cons]
  all_goals omega

/-- Parse a JSON string body after the opening quote; returns the content and
the remainder after the closing quote. -/
def parseStringBody (s : Str) : Option (Str × Str) :=
  match h : strTokStep s with
  | .done rest => some ([], rest)
  | .chr c rest => (parseStringBody rest).map (fun p => (c :: p.1, p.2))
  | .fail => none
termination_by s.length
decreasing_by exact strTokStep_length s c rest h

theorem parseStringBody_done (s rest : Str) (h : strTokStep s = .done rest) :
    parseStringBody s = some ([], rest) := by
  rw [parseStringBody.eq_def]
  split <;> simp_all

theorem parseStringBody_chr (s : Str) (c : Char) (rest : Str)
    (h : strTokStep s = .chr c rest) :
    parseStringBody s = (parseStringBody rest).map (fun p => (c :: p.1, p.2)) := by
  rw [parseStringBody.eq_def]
  split <;> simp_all

/-- Optional fraction part of a JSON number. -/
def parseFrac (s : Str) : Option (Str × Str) :=
  match s with
  | '.' :: r =>
    let ds := r.takeWhile isDigit09
    if ds.isEmpty then none else some ('.' :: ds, r.dropWhile isDigit09)
  | _ => some ([], s)

/-- Optional exponent part of a JSON number. -/
def parseExp (s : Str) : Option (Str × Str) :=
  match s with
  | c :: r =>
    if c = 'e' || c = 'E' then
      let (sg, r1) : Str × Str :=
        match r with
        | '+' :: r2 => (['+'], r2)
        | '-' :: r2 => (['-'], r2)
        | _ => ([], r)
      let ds := r1.takeWhile isDigit09
      if ds.isEmpty then none else some (c :: (sg ++ ds), r1.dropWhile isDigit09)
    else some ([], s)
  | [] => some ([], [])

/-- Lexeme of a JSON number: `-?(0|[1-9][0-9]*)(\.[0-9]+)?([eE][+-]?[0-9]+)?`. -/
def parseNumberLexeme (s : Str) : Option (Str × Str) :=
  let (sign, s1) : Str × Str :=
    match s with
    | '-' :: r => (['-'], r)
    | _ => ([], s)
  match s1 with
  | [] => none
  | c :: r =>
    if isDigit09 c then
      let (ipart, s2) : Str × Str :=
        if c = '0' then (['0'], r)
        else (c :: r.takeWhile isDigit09, r.dropWhile isDigit09)
      match parseFrac s2 with
      | none => none
      | some (fpart, s3) =>
        match parseExp s3 with
        | none => none
        | some (epart, s4) => some (sign ++ ipart ++ fpart ++ epart, s4)
    else none

/-- Property assignment `obj[k] = v`: a duplicate key keeps its original
position and takes the new value. -/
def objSet (members : List (Str × Json)) (k : Str) (v : Json) : List (Str × Json) :=
  match members with
  | [] => [(k, v)]
  | (k', v') :: rest => if k' = k then (k', v) :: rest else (k', v') :: objSet rest k v

/-- Build an object from parsed members in order. -/
def mkObj (raw : List (Str × Json)) : List (Str × Json) :=
  raw.foldl (fun acc kv => objSet acc kv.1 kv.2) []

mutual

/-- Parse one JSON value (fuel decreases at every recursive step). -/
def parseValue : Nat → Str → Option (Json × Str)
  | 0, _ => none
  | fuel + 1, s =>
    match s.dropWhile jsonWs with
    | [] => none
    | c :: r =>
      if c = '{' then
        match parseObjectBody fuel r with
        | some (raw, rest) => some (Json.obj (mkObj raw), rest)
        | none => none
      else if c = '[' then
        match parseArrayBody fuel r with
        | some (elems, rest) => some (Json.arr elems, rest)
        | none => none
      else if c = '"' then (parseStringBody r).map (fun p => (Json.str p.1, p.2))
      else if c = 't' then
        match r with
        | 'r' :: 'u' :: 'e' :: r2 => some (Json.bool true, r2)
        | _ => none
      else if c = 'f' then
        match r with
        | 'a' :: 'l' :: 's' :: 'e' :: r2 => some (Json.bool false, r2)
        | _ => none
      else if c = 'n' then
        match r with
        | 'u' :: 'l' :: 'l' :: r2 => some (Json.null, r2)
        | _ => none
      else
        match parseNumberLexeme (c :: r) with
        | some (lex, rest) => some (Json.num lex, rest)
        | none => none

/-- Parse an object body after `{`. -/
def parseObjectBody : Nat → Str → Option (List (Str × Json) × Str)
  | 0, _ => none
  | fuel + 1, s =>
    match s.dropWhile jsonWs with
    | '}' :: r => some ([], r)
    | _ => parseMembers fuel s

/-- Parse one or more `"key": value` members. -/
def parseMembers : Nat → Str → Option (List (Str × Json) × Str)
  | 0, _ => none
  | fuel + 1, s =>
    match s.dropWhile jsonWs with
    | '"' :: r =>
      match parseStringBody r with
      | none => none
      | some (key, r1) =>
        match r1.dropWhile jsonWs with
        | ':' :: r2 =>
          match parseValue fuel r2 with
          | none => none
          | some (v, r3) =>
            match r3.dropWhile jsonWs with
            | ',' :: r4 =>
              match parseMembers fuel r4 with
              | some (ms, rest) => some ((key, v) :: ms, rest)
              | none => none
            | '}' :: r4 => some ([(key, v)], r4)
            | _ => none
        | _ => none
    | _ => none

/-- Parse an array body after `[`. -/
def parseArrayBody : Nat → Str → Option (List Json × Str)
  | 0, _ => none
  | fuel + 1, s =>
    match s.dropWhile jsonWs with
    | ']' :: r => some ([], r)
    | _ => parseElems fuel s

/-- Parse one or more array elements. -/
def parseElems : Nat → Str → Option (List Json × Str)
  | 0, _ => none
  | fuel + 1, s =>
    match parseValue fuel s with
    | none => none
    | some (v, r) =>
      match r.dropWhile jsonWs with
      | ',' :: r2 =>
        match parseElems fuel r2 with
        | some (es, rest) => some (v :: es, rest)
        | none => none
      | ']' :: r2 => some ([v], r2)
      | _ => none

end

/-- `JSON.parse`: a complete value followed only by whitespace. -/
def jsonParse (s : Str) : Option Json :=
  match parseValue (s.length + 2) s with
  | some (v, rest) => if (rest.dropWhile jsonWs).isEmpty then some v else none
  | none => none

/-- `Object.entries(v)`; `none` models the `TypeError` thrown on `null`. -/
def jsEntries : Json → Option (List (Str × Json))
  | .null => none
  | .obj l => some l
  | .arr l => some (l.enum.map (fun p => ((Nat.repr p.1).data, p.2)))
  | .str s => some (s.enum.map (fun p => ((Nat.repr p.1).data, Json.str [p.2])))
  | .num _ => some []
  | .bool _ => some []

/-- Whether a JSON number lexeme denotes zero: no nonzero mantissa digit. -/
def jsFalsyNum (lex : Str) : Bool :=
  (lex.takeWhile (fun c => c ≠ 'e' && c ≠ 'E')).all (fun c => !('1' ≤ c && c ≤ '9'))

/-- JS falsiness of a parsed JSON value. -/
def jsFalsy : Json → Bool
  | .null => true
  | .bool b => !b
  | .num lex => jsFalsyNum lex
  | .str s => s.isEmpty
  | .arr _ => false
  | .obj _ => false

mutual

/-- JS `String(v)` coercion of a parsed JSON value (numbers are shown by
their lexeme; `null` inside an array joins as the empty string). -/
def jsToString : Json → Str
  | .null => lit "null"
  | .bool true => lit "true"
  | .bool false => lit "false"
  | .num lex => lex
  | .str s => s
  | .arr l => joinWith ',' (jsToStringList l)
  | .obj _ => lit "[object Object]"

/-- Element coercions used by `Array.prototype.join` (`null` joins empty). -/
def jsToStringList : List Json → List Str
  | [] => []
  | .null :: rest => [] :: jsToStringList rest
  | v :: rest => jsToString v :: jsToStringList rest

end

/-- JS `String.prototype.length`: the UTF-16 code-unit count (an astral code
point encodes as a surrogate pair and counts 2). -/
def utf16Length : Str → Nat
  | [] => 0
  | c :: rest => (if c.toNat < 65536 then 1 else 2) + utf16Length rest

/-- The `.length > 1000` test of `validateSetupConfig` under JS semantics:
string length is the UTF-16 code-unit count, array length the element count,
and `undefined > 1000` is false for values with no `length`. -/
def jsLengthGt1000 : Json → Bool
  | .str s => decide (1000 < utf16Length s)
  | .arr l => decide (1000 < l.length)
  | _ => false

/-! ### The codec round-trips `JSON.stringify` output -/

/-- The members of a flat string object, as `JSON.parse` returns them. -/
def objOf (cfg : List (Str × Str)) : List (Str × Json) :=
  cfg.map (fun kv => (kv.1, Json.str kv.2))

theorem parseHexDigit_hexDigitChar (n : Nat) (h : n < 16) :
    parseHexDigit (hexDigitChar n) = some n := by
  revert n; decide

theorem char_eq_of_toNat {c : Char} {n : Nat} (h : c.toNat = n) : c = Char.ofNat n := by
  rw [← h, Char.ofNat_toNat]

theorem psb_quote (rest : Str) : parseStringBody ('"' :: rest) = some ([], rest) :=
  parseStringBody_done _ _ rfl

theorem psb_esc_quote (tail : Str) : parseStringBody ('\\' :: '"' :: tail)
    = (parseStringBody tail).map (fun p => ('"' :: p.1, p.2)) :=
  parseStringBody_chr _ _ _ rfl

theorem psb_esc_bs (tail : Str) : parseStringBody ('\\' :: '\\' :: tail)
    = (parseStringBody tail).map (fun p => ('\\' :: p.1, p.2)) :=
  parseStringBody_chr _ _ _ rfl

theorem psb_esc_b (tail : Str) : parseStringBody ('\\' :: 'b' :: tail)
    = (parseStringBody tail).map (fun p => (Char.ofNat 8 :: p.1, p.2)) :=
  parseStringBody_chr _ _ _ rfl

theorem psb_esc_t (tail : Str) : parseStringBody ('\\' :: 't' :: tail)
    = (parseStringBody tail).map (fun p => ('\t' :: p.1, p.2)) :=
  parseStringBody_chr _ _ _ rfl

theorem psb_esc_n (tail : Str) : parseStringBody ('\\' :: 'n' :: tail)
    = (parseStringBody tail).map (fun p => ('\n' :: p.1, p.2)) :=
  parseStringBody_chr _ _ _ rfl

theorem psb_esc_f (tail : Str) : parseStringBody ('\\' :: 'f' :: tail)
    = (parseStringBody tail).map (fun p => (Char.ofNat 12 :: p.1, p.2)) :=
  parseStringBody_chr _ _ _ rfl

theorem psb_esc_r (tail : Str) : parseStringBody ('\\' :: 'r' :: tail)
    = (parseStringBody tail).map (fun p => (Char.ofNat 13 :: p.1, p.2)) :=
  parseStringBody_chr _ _ _ rfl

theorem psb_raw (c : Char) (h1 : ¬c = '"') (h2 : ¬c = '\\') (h3 : ¬c.toNat < 32)
    (tail : Str) : parseStringBody (c :: tail)
    = (parseStringBody tail).map (fun p => (c :: p.1, p.2)) := by
  have hstep : strTokStep (c :: tail) = .chr c tail := by
    rw [strTokStep.eq_def]
    split <;> simp_all
  exact parseStringBody_chr _ _ _ hstep

theorem psb_u00 (h3c h4c : Char) (x y : Nat) (hx : parseHexDigit h3c = some x)
    (hy : parseHexDigit h4c = some y) (hx16 : x < 16) (hy16 : y < 16) (tail : Str) :
    parseStringBody ('\\' :: 'u' :: '0' :: '0' :: h3c :: h4c :: tail)
      = (parseStringBody tail).map (fun p => (Char.ofNat (x * 16 + y) :: p.1, p.2)) := by
  have e0 : parseHexDigit '0' = some 0 := by decide
  have hstep : strTokStep ('\\' :: 'u' :: '0' :: '0' :: h3c :: h4c :: tail)
      = .chr (Char.ofNat (x * 16 + y)) tail := by
    have hu : strTokStep ('\\' :: 'u' :: '0' :: '0' :: h3c :: h4c :: tail)
        = uStep '0' '0' h3c h4c tail := rfl
    rw [hu]
    unfold uStep
    simp only [e0, hx, hy]
    rw [if_neg (by omega), if_neg (by omega)]
    have hcode : 0 * 4096 + 0 * 256 + x * 16 + y = x * 16 + y := by omega
    rw [hcode]
  exact parseStringBody_chr _ _ _ hstep

theorem parseStringBody_escaped (s rest : Str) :
    parseStringBody (jsonEscapeStr s ++ '"' :: rest) = some (s, rest) := by
  induction s with
  | nil => simpa [jsonEscapeStr] using psb_quote rest
  | cons c cs ih =>
    rw [jsonEscapeStr, List.append_assoc]
    by_cases h1 : c = '"'
    · subst h1
      simp [jsonEscapeChar, psb_esc_quote, ih]
    · by_cases h2 : c = '\\'
      · subst h2
        simp [jsonEscapeChar, psb_esc_bs, ih]
      · by_cases h3 : c.toNat = 8
        · have hc := char_eq_of_toNat h3
          subst hc
          simp [jsonEscapeChar, psb_esc_b, ih]
        · by_cases h4 : c.toNat = 9
          · have hc := char_eq_of_toNat h4
            subst hc
            simp [jsonEscapeChar, psb_esc_t, ih]
          · by_cases h5 : c.toNat = 10
            · have hc := char_eq_of_toNat h5
              subst hc
              simp [jsonEscapeChar, psb_esc_n, ih]
            · by_cases h6 : c.toNat = 12
              · have hc := char_eq_of_toNat h6
                subst hc
                simp [jsonEscapeChar, psb_esc_f, ih]
              · by_cases h7 : c.toNat = 13
                · have hc := char_eq_of_toNat h7
                  subst hc
                  simp [jsonEscapeChar, psb_esc_r, ih]
                · by_cases h8 : c.toNat < 32
                  · have hhi : c.toNat / 16 < 16 := by omega
                    have hlo : c.toNat % 16 < 16 := by omega
                    simp only [jsonEscapeChar, if_neg h1, if_neg h2, if_neg h3, if_neg h4,
                      if_neg h5, if_neg h6, if_neg h7, if_pos h8, List.cons_append,
                      List.nil_append]
                    rw [psb_u00 _ _ _ _ (parseHexDigit_hexDigitChar _ hhi)
                      (parseHexDigit_hexDigitChar _ hlo) hhi hlo, ih]
                    have hcode : c.toNat / 16 * 16 + c.toNat % 16 = c.toNat := by omega
                    rw [hcode, Char.ofNat_toNat]
                    rfl
                  · simp only [jsonEscapeChar, if_neg h1, if_neg h2, if_neg h3, if_neg h4,
                      if_neg h5, if_neg h6, if_neg h7, if_neg h8, List.cons_append,
                      List.nil_append]
                    rw [psb_raw c h1 h2 h8, ih]
                    rfl

theorem parseValue_strLit (v : Str) (f : Nat) (tail : Str) :
    parseValue (f + 1) ('"' :: (jsonEscapeStr v ++ '"' :: tail))
      = some (Json.str v, tail) := by
  have hdrop : (('"' :: (jsonEscapeStr v ++ '"' :: tail)).dropWhile jsonWs)
      = '"' :: (jsonEscapeStr v ++ '"' :: tail) := rfl
  rw [parseValue, hdrop]
  simp only []
  rw [if_neg (by decide), if_neg (by decide), if_pos (by trivial), parseStringBody_escaped]
  rfl

theorem objSet_fresh (acc : List (Str × Json)) (k : Str) (v : Json)
    (h : ∀ kv ∈ acc, kv.1 ≠ k) : objSet acc k v = acc ++ [(k, v)] := by
  induction acc with
  | nil => rfl
  | cons kv rest ih =>
    have hk : kv.1 ≠ k := h kv (by simp)
    simp only [objSet, if_neg hk, List.cons_append, List.cons.injEq, true_and]
    exact ih (fun kv' h' => h kv' (by simp [h']))

theorem foldl_objSet_fresh (raw : List (Str × Json)) :
    ∀ acc : List (Str × Json), ((acc ++ raw).map Prod.fst).Nodup →
    raw.foldl (fun a kv => objSet a kv.1 kv.2) acc = acc ++ raw := by
  induction raw with
  | nil =>
    intro acc _
    simp
  | cons kv rest ih =>
    intro acc hnd
    have hmap : ((acc ++ kv :: rest).map Prod.fst)
        = acc.map Prod.fst ++ kv.1 :: rest.map Prod.fst := by simp
    rw [hmap, List.nodup_append] at hnd
    obtain ⟨hn1, hn2, hdisj⟩ := hnd
    have hfresh : ∀ kv' ∈ acc, kv'.1 ≠ kv.1 := by
      intro kv' hkv' heq
      exact hdisj (List.mem_map_of_mem _ hkv') (by simp [heq])
    rw [List.foldl_cons, objSet_fresh acc kv.1 kv.2 hfresh]
    have hpair : acc ++ [(kv.1, kv.2)] = acc ++ [kv] := by simp
    rw [hpair, ih (acc ++ [kv]) ?hnd2]
    · simp
    case hnd2 =>
      have hre : (acc ++ [kv]) ++ rest = acc ++ kv :: rest := by simp
      rw [hre, hmap, List.nodup_append]
      exact ⟨hn1, hn2, hdisj⟩

theorem dropWhile_not_ws (c : Char) (h : jsonWs c = false) (l : Str) :
    List.dropWhile jsonWs (c :: l) = c :: l := by
  simp [List.dropWhile_cons, h]

theorem parseMembers_stringify :
    ∀ (cfg : List (Str × Str)) (f : Nat) (rest : Str), cfg ≠ [] → cfg.length ≤ f →
      parseMembers (f + 1) (membersStr cfg ++ '}' :: rest) = some (objOf cfg, rest)
  | [], _, _, hne, _ => absurd rfl hne
  | [(k, v)], f, rest, _, hf => by
    obtain ⟨f', rfl⟩ : ∃ f', f = f' + 1 := ⟨f - 1, by simp at hf; omega⟩
    simp only [membersStr, memberStr, jsonQuote, List.append_assoc, List.cons_append,
      List.nil_append, List.append_nil]
    rw [parseMembers]
    rw [dropWhile_not_ws _ (by decide)]
    simp only []
    rw [parseStringBody_escaped]
    simp only []
    rw [dropWhile_not_ws _ (by decide)]
    simp only []
    rw [parseValue_strLit]
    simp only []
    rw [dropWhile_not_ws _ (by decide)]
    simp only [objOf, List.map_cons, List.map_nil]
  | (k, v) :: kv2 :: tl, f, rest, _, hf => by
    obtain ⟨f', rfl⟩ : ∃ f', f = f' + 1 := ⟨f - 1, by simp at hf; omega⟩
    have hm : membersStr ((k, v) :: kv2 :: tl)
        = memberStr (k, v) ++ ',' :: membersStr (kv2 :: tl) := rfl
    rw [hm]
    simp only [memberStr, jsonQuote, List.append_assoc, List.cons_append,
      List.nil_append]
    rw [parseMembers]
    rw [dropWhile_not_ws _ (by decide)]
    simp only []
    rw [parseStringBody_escaped]
    simp only []
    rw [dropWhile_not_ws _ (by decide)]
    simp only []
    rw [parseValue_strLit]
    simp only []
    rw [dropWhile_not_ws _ (by decide)]
    simp only []
    rw [parseMembers_stringify (kv2 :: tl) f' rest (by simp) (by simp at hf ⊢; omega)]
    simp only [objOf, List.map_cons]

theorem mkObj_self (raw : List (Str × Json)) (hnd : (raw.map Prod.fst).Nodup) :
    mkObj raw = raw := by
  have h := foldl_objSet_fresh raw [] (by simpa using hnd)
  simpa [mkObj] using h

theorem memberStr_length_pos (kv : Str × Str) : 1 ≤ (memberStr kv).length := by
  simp [memberStr, jsonQuote]

theorem membersStr_length_ge :
    ∀ cfg : List (Str × Str), cfg.length ≤ (membersStr cfg).length
  | [] => by simp [membersStr]
  | kv :: tl => by
    have h1 := memberStr_length_pos kv
    have h2 := membersStr_length_ge tl
    cases tl with
    | nil => simpa [membersStr] using h1
    | cons kv2 tl2 =>
      have hm : membersStr (kv :: kv2 :: tl2)
          = memberStr kv ++ ',' :: membersStr (kv2 :: tl2) := rfl
      rw [hm]
      simp only [List.length_append, List.length_cons] at h2 ⊢
      omega

theorem membersStr_cons_head (kv : Str × Str) (tl : List (Str × Str)) :
    ∃ t, membersStr (kv :: tl) = '"' :: t := by
  cases tl with
  | nil =>
    refine ⟨jsonEscapeStr kv.1 ++ '"' :: ':' :: '"' :: (jsonEscapeStr kv.2 ++ ['"']), ?_⟩
    simp [membersStr, memberStr, jsonQuote]
  | cons kv2 tl2 =>
    refine ⟨jsonEscapeStr kv.1 ++ '"' :: ':' :: '"' :: (jsonEscapeStr kv.2 ++
      '"' :: ',' :: membersStr (kv2 :: tl2)), ?_⟩
    have hm : membersStr (kv :: kv2 :: tl2)
        = memberStr kv ++ ',' :: membersStr (kv2 :: tl2) := rfl
    rw [hm]
    simp [memberStr, jsonQuote]

theorem parseObjectBody_nonempty (fuel : Nat) (s : Str) (c : Char) (r : Str)
    (h : s.dropWhile jsonWs = c :: r) (hc : ¬c = '}') :
    parseObjectBody (fuel + 1) s = parseMembers fuel s := by
  rw [parseObjectBody, h]
  split <;> simp_all

theorem jsonParse_stringify (cfg : List (Str × Str)) (hnd : (cfg.map Prod.fst).Nodup) :
    jsonParse (jsonStringify cfg) = some (Json.obj (objOf cfg)) := by
  cases cfg with
  | nil => rfl
  | cons kv tl =>
    have hobj : ((objOf (kv :: tl)).map Prod.fst).Nodup := by
      simpa [objOf, List.map_map, Function.comp] using hnd
    obtain ⟨t, ht⟩ := membersStr_cons_head kv tl
    have hlen := membersStr_length_ge (kv :: tl)
    rw [jsonStringify, jsonParse]
    rw [show ('{' :: membersStr (kv :: tl) ++ ['}']).length + 2
      = ((membersStr (kv :: tl)).length + 3) + 1 by simp [List.length_append]]
    rw [parseValue]
    simp only [List.cons_append]
    rw [dropWhile_not_ws '{' (by decide)]
    simp only []
    rw [if_pos (by trivial)]
    have hd : ((membersStr (kv :: tl) ++ ['}']).dropWhile jsonWs)
        = '"' :: (t ++ ['}']) := by
      rw [ht]
      exact dropWhile_not_ws '"' (by decide) _
    rw [show (membersStr (kv :: tl)).length + 3
      = ((membersStr (kv :: tl)).length + 2) + 1 from rfl]
    rw [parseObjectBody_nonempty _ _ _ _ hd (by decide)]
    rw [show (membersStr (kv :: tl)).length + 2
      = ((membersStr (kv :: tl)).length + 1) + 1 from rfl]
    rw [parseMembers_stringify (kv :: tl) ((membersStr (kv :: tl)).length + 1) []
      (by simp) (by simp at hlen ⊢; omega)]
    simp [mkObj_self (objOf (kv :: tl)) hobj]

/-! ## Security pattern library (setup.ts lines 31–92) -/

/-- The backtick character. -/
def btick : Char := Char.ofNat 96

/-- The class of `SECURITY_PATTERNS.dangerousChars`. -/
def dangerousChar (c : Char) : Bool :=
  c = ';' || c = '&' || c = '|' || c = btick || c = '$' || c = '(' || c = ')' ||
  c = '{' || c = '}' || c = '[' || c = ']' || c = '<' || c = '>'

/-- Split on JavaScript line terminators (what `.` does not match). -/
def splitOnLineTerm : Str → List Str
  | [] => [[]]
  | c :: rest =>
    if lineTerm c then [] :: splitOnLineTerm rest
    else
      match splitOnLineTerm rest with
      | [] => [[c]]
      | h :: t => (c :: h) :: t

/-- Concatenation of a list of lists. -/
def concatAll : List (List α) → List α
  | [] => []
  | l :: ls => l ++ concatAll ls

/-- The regex fragment `` /`.*`/ ``: two backticks with no line terminator
between them. -/
def hasBacktickPair (v : Str) : Bool :=
  (splitOnLineTerm v).any (fun seg => 2 ≤ seg.countP (fun c => c = btick))

/-- `SECURITY_PATTERNS.commandSubstitution`. -/
def hasCommandSubstitution (v : Str) : Bool :=
  containsSubstr v (lit "$(") || hasBacktickPair v

/-- `SECURITY_PATTERNS.redirection`. -/
def hasRedirection (v : Str) : Bool :=
  containsSubstr v (lit ">>") || containsSubstr v (lit "<<") ||
  containsSubstr v (lit ">&") || containsSubstr v (lit "<&")

/-- `SECURITY_PATTERNS.pathTraversal`. -/
def hasPathTraversal (v : Str) : Bool := containsSubstr v (lit "../")

/-- `SECURITY_PATTERNS.nullBytes`. -/
def hasNullBytes (v : Str) : Bool := strHasChar v (Char.ofNat 0)

/-- `hasControlCharacters`: code points 0–8, 11, 12, 14–31 or 127. -/
def hasControlCharacters (value : Str) : Bool :=
  value.any (fun c =>
    let code := c.toNat
    code ≤ 8 || code = 11 || code = 12 || (14 ≤ code && code ≤ 31) || code = 127)

/-- The `SUSPICIOUS_KEYWORDS` list. -/
def SUSPICIOUS_KEYWORDS : List Str :=
  [lit "rm", lit "delete", lit "del", lit "unlink", lit "rmdir",
   lit "curl", lit "wget", lit "fetch", lit "nc", lit "netcat",
   lit "eval", lit "exec", lit "system", lit "shell",
   lit "chmod", lit "chown", lit "sudo", lit "su",
   lit "kill", lit "killall", lit "pkill",
   lit "crontab", lit "at", lit "nohup",
   lit "python", lit "perl", lit "ruby", lit "node", lit "bash", lit "sh",
   lit "zsh", lit "fish",
   lit "http://", lit "https://", lit "ftp://", lit "ssh://",
   lit "DROP", lit "DELETE", lit "TRUNCATE", lit "ALTER"]

/-- The `Security violation in FIELD: contains PATTERN` message. -/
def securityViolationMsg (fieldName patternName : Str) : Str :=
  lit "Security violation in " ++ fieldName ++ lit ": contains " ++ patternName

/-- `checkDangerousPatterns` (setup.ts lines 67–92).  The display-name
exemption keys on the camel-case substring `ServiceNames`, exactly as in the
source. -/
def checkDangerousPatterns (value fieldName : Str) : List Str :=
  let isServiceNameField := containsSubstr fieldName (lit "ServiceNames")
  (if isServiceNameField then
    (if value.any dangerousChar then
      [lit "Security violation in " ++ fieldName ++
        lit ": contains dangerous characters (excluding spaces)"]
    else [])
   else
    (if value.any dangerousChar then
      [securityViolationMsg fieldName (lit "dangerousChars")]
    else []))
  ++ (if hasCommandSubstitution value then
      [securityViolationMsg fieldName (lit "commandSubstitution")] else [])
  ++ (if hasRedirection value then
      [securityViolationMsg fieldName (lit "redirection")] else [])
  ++ (if hasPathTraversal value then
      [securityViolationMsg fieldName (lit "pathTraversal")] else [])
  ++ (if hasNullBytes value then
      [securityViolationMsg fieldName (lit "nullBytes")] else [])
  ++ (if hasControlCharacters value then
      [lit "Security violation in " ++ fieldName ++ lit ": contains control characters"]
    else [])

/-! ## Shell families and the escaping engine

The source delegates escaping to the external `shescape` package, which is
not part of this repository.  Modelled from the spec: a shell-aware escaping
function per shell family (bash-compatible shells uniform, Windows `cmd` and
PowerShell distinct) that prefixes every character the family's shell treats
specially with a backslash, so that escaping changes a value exactly when the
value contains such a character, and escaping a display name whose only
special characters are spaces yields `value.replace(/ /g, '\\ ')`. -/

/-- The three escaping families recognised by the source's shell map. -/
inductive ShellFamily where
  | bash : ShellFamily
  | cmd : ShellFamily
  | powershell : ShellFamily
deriving DecidableEq, Repr

/-- `path.basename` (POSIX flavour: last non-empty `/`-separated segment). -/
def pathBasename (p : Str) : Str :=
  ((splitOnChar '/' p).filter (fun seg => !seg.isEmpty)).getLastD []

/-- The `supportedShells` record of `checkShellInjection`. -/
def supportedShellLookup (name : Str) : Option ShellFamily :=
  if name = lit "bash" then some .bash
  else if name = lit "zsh" then some .bash
  else if name = lit "sh" then some .bash
  else if name = lit "cmd" then some .cmd
  else if name = lit "powershell" then some .powershell
  else if name = lit "pwsh" then some .powershell
  else none

/-- `process.env.SHELL ?? '/bin/bash'`, then `supportedShells[name] || 'bash'`. -/
def shellFamily (shell : Option Str) : ShellFamily :=
  (supportedShellLookup (pathBasename (shell.getD (lit "/bin/bash")))).getD .bash

/-- Modelled from the spec: characters a bash-compatible shell treats
specially (the source's own display-name branch shows that a space escapes
to backslash-space). -/
def bashSpecial (c : Char) : Bool :=
  c = ' ' || c = '\t' || c = '\n' || c = Char.ofNat 13 || c = '"' || c = '\'' ||
  c = btick || c = '$' || c = ';' || c = '&' || c = '|' || c = '<' || c = '>' ||
  c = '(' || c = ')' || c = '{' || c = '}' || c = '[' || c = ']' || c = '*' ||
  c = '?' || c = '~' || c = '#' || c = '!' || c = '\\'

/-- Modelled from the spec: characters the Windows command shell treats
specially (quote- and escape-relevant characters included). -/
def cmdSpecial (c : Char) : Bool :=
  c = ' ' || c = '\t' || c = '"' || c = '\\' || c = '%' || c = '^' || c = '&' ||
  c = '|' || c = '<' || c = '>' || c = '(' || c = ')'

/-- Modelled from the spec: characters PowerShell treats specially (quote-
and escape-relevant characters included). -/
def powershellSpecial (c : Char) : Bool :=
  c = ' ' || c = '\t' || c = btick || c = '"' || c = '\'' || c = '$' || c = '&' ||
  c = '|' || c = '<' || c = '>' || c = '(' || c = ')' || c = ';' || c = ',' ||
  c = '{' || c = '}' || c = '[' || c = ']' || c = '#' || c = '\\'

/-- Prefix every character satisfying `special` with a backslash. -/
def escapeChars (special : Char → Bool) : Str → Str
  | [] => []
  | c :: rest => (if special c then ['\\', c] else [c]) ++ escapeChars special rest

/-- Modelled from the spec: `new Shescape({shell}).escape` per family. -/
def escapeForFamily : ShellFamily → Str → Str
  | .bash, v => escapeChars bashSpecial v
  | .cmd, v => escapeChars cmdSpecial v
  | .powershell, v => escapeChars powershellSpecial v

/-- `value.replace(/ /g, '\\ ')` from the display-name branch. -/
def spaceEscape (v : Str) : Str := escapeChars (fun c => c = ' ') v

/-- `checkShellInjection` (setup.ts lines 95–142), on the non-exception path
of the escaping engine. -/
def checkShellInjection (shell : Option Str) (value fieldName : Str) : List Str :=
  let isServiceNameField := containsSubstr fieldName (lit "ServiceNames")
  let escaped := escapeForFamily (shellFamily shell) value
  (if escaped ≠ value ∧ isServiceNameField = false then
    [lit "Security violation in " ++ fieldName ++
      lit ": contains shell metacharacters that require escaping"]
  else [])
  ++ (if escaped ≠ value ∧ isServiceNameField = true ∧ escaped ≠ spaceEscape value then
    [lit "Security violation in " ++ fieldName ++
      lit ": contains dangerous shell metacharacters beyond spaces"]
  else [])

/-- `checkSuspiciousKeywords` (setup.ts lines 145–156). -/
def checkSuspiciousKeywords (value fieldName : Str) : List Str :=
  let lowerValue := value.map Char.toLower
  SUSPICIOUS_KEYWORDS.filterMap (fun keyword =>
    if containsSubstr lowerValue (keyword.map Char.toLower) then
      some (lit "Suspicious content in " ++ fieldName ++ lit ": contains '" ++
        keyword ++ lit "'")
    else none)

/-! ## Field format validators (setup.ts lines 158–216) -/

/-- One character of `/^[a-zA-Z0-9_-]+$/`. -/
def idChar (c : Char) : Bool :=
  isUpperAZ c || isLowerAZ c || isDigit09 c || c = '_' || c = '-'

/-- `/^[a-zA-Z0-9_-]+$/`. -/
def regexIdOk (s : Str) : Bool := !s.isEmpty && s.all idChar

/-- One character of `/^[a-zA-Z0-9\s_-]+$/`. -/
def svcNameChar (c : Char) : Bool :=
  isUpperAZ c || isLowerAZ c || isDigit09 c || jsSpace c || c = '_' || c = '-'

/-- `/^[a-zA-Z0-9\s_-]+$/`. -/
def regexSvcNameOk (s : Str) : Bool := !s.isEmpty && s.all svcNameChar

/-- `validateServiceIdsFormat`. -/
def validateServiceIdsFormat (fieldName value : Str) : List Str :=
  ((splitOnChar ',' value).map jsTrim).filterMap (fun serviceId =>
    if regexIdOk serviceId then none
    else some (lit "Invalid service ID format in " ++ fieldName ++ lit ": '" ++
      serviceId ++
      lit "' should only contain alphanumeric characters, underscores, and hyphens"))

/-- `validateServiceNamesFormat`. -/
def validateServiceNamesFormat (fieldName value : Str) : List Str :=
  concatAll (((splitOnChar ',' value).map jsTrim).map (fun serviceName =>
    (if regexSvcNameOk serviceName then []
     else [lit "Invalid service name format in " ++ fieldName ++ lit ": '" ++
       serviceName ++
       lit "' should only contain alphanumeric characters, spaces, underscores, and hyphens"])
    ++ (if serviceName.length = 0 then
      [lit "Empty service name found in " ++ fieldName] else [])))

/-- `validateKeysFormat`. -/
def validateKeysFormat (value : Str) : List Str :=
  ((splitOnChar ',' value).map jsTrim).filterMap (fun key =>
    if regexIdOk key then none
    else some (lit "Invalid default key format: '" ++ key ++
      lit "' should only contain alphanumeric characters, underscores, and hyphens"))

/-- `validateFieldFormat` (errors; its warnings are always empty). -/
def validateFieldFormat (envVarName value : Str) : List Str :=
  if strEnds envVarName (lit "_SERVICE_IDS") then
    validateServiceIdsFormat envVarName value
  else if strEnds envVarName (lit "_SERVICE_NAMES") then
    validateServiceNamesFormat envVarName value
  else if strEnds envVarName (lit "_DEFAULT_KEYS") then
    validateKeysFormat value
  else []

/-! ## Configuration validator (setup.ts lines 219–254) -/

/-- The outcome of a validation pass. -/
structure ValidationResult where
  isValid : Bool
  errors : List Str
  warnings : List Str
deriving DecidableEq, Repr

/-- Key rule 1 of `validateSetupConfig`. -/
def validEnvVarName (name : Str) : Bool :=
  strStarts name (lit "FASTLY_") && regexEnvName name

/-- The errors `validateSetupConfig` records for one entry. -/
def entryErrors (shell : Option Str) (name : Str) (jv : Json) : List Str :=
  if jsFalsy jv then []
  else if validEnvVarName name = false then
    [lit "Invalid environment variable name: '" ++ name ++
      lit "' must start with 'FASTLY_' and contain only uppercase letters, numbers, and underscores"]
  else
    (if jsLengthGt1000 jv then
      [lit "Environment variable " ++ name ++
        lit " exceeds maximum length (1000 characters)"]
    else [])
    ++ checkDangerousPatterns (jsToString jv) name
    ++ checkShellInjection shell (jsToString jv) name
    ++ validateFieldFormat name (jsToString jv)

/-- The warnings `validateSetupConfig` records for one entry. -/
def entryWarnings (name : Str) (jv : Json) : List Str :=
  if jsFalsy jv then []
  else if validEnvVarName name = false then []
  else checkSuspiciousKeywords (jsToString jv) name

/-- `validateSetupConfig` on the entry list of an arbitrary parsed value. -/
def validateEntries (shell : Option Str) (entries : List (Str × Json)) :
    ValidationResult :=
  let errors := concatAll (entries.map (fun kv => entryErrors shell kv.1 kv.2))
  let warnings := concatAll (entries.map (fun kv => entryWarnings kv.1 kv.2))
  { isValid := errors.isEmpty, errors := errors, warnings := warnings }

/-- `validateSetupConfig` on a `SetupConfig` (string-valued entries; an
absent or `undefined` value is simply not in the list). -/
def validateSetupConfig (shell : Option Str) (config : List (Str × Str)) :
    ValidationResult :=
  validateEntries shell (config.map (fun kv => (kv.1, Json.str kv.2)))

/-! ## Codec (setup.ts lines 317–344) -/

/-- Modelled stand-in for the engine-specific `JSON.parse` failure message
wrapped by `decodeSetupString`. -/
def jsonParseErrCause : Str := lit "Unexpected token"

/-- `encodeSetupString`. -/
def encodeSetupString (config : List (Str × Str)) : Str :=
  encodeB64 (utf8Encode (jsonStringify config))

/-- `decodeSetupString`: base64-decode, UTF-8 decode, `JSON.parse`, then the
security validation gate; every failure is wrapped into an
`Invalid setup configuration` error. -/
def decodeSetupString (shell : Option Str) (encodedConfig : Str) : Except Str Json :=
  match jsonParse (utf8Decode (decodeB64 encodedConfig)) with
  | none => .error (lit "Invalid setup configuration: " ++ jsonParseErrCause)
  | some config =>
    match jsEntries config with
    | none =>
      .error (lit "Invalid setup configuration: Cannot convert undefined or null to object")
    | some entries =>
      let validation := validateEntries shell entries
      if validation.isValid then .ok config
      else
        .error (lit "Invalid setup configuration: Security validation failed: " ++
          joinCommaSpace validation.errors)

/-! ## Export commands (setup.ts lines 257–315 and 473–490) -/

/-- The match of `/^export\s+([A-Z_][A-Z0-9_]*)\s*=\s*"([^"]*)"$/` on a
command, returning the name and value captures. -/
def parseExportCommand (cmd : Str) : Option (Str × Str) :=
  match cmd with
  | 'e' :: 'x' :: 'p' :: 'o' :: 'r' :: 't' :: r0 =>
    match r0 with
    | c0 :: _ =>
      if jsSpace c0 then
        let r1 := r0.dropWhile jsSpace
        match r1 with
        | c1 :: _ =>
          if envNameStart c1 then
            let name := r1.takeWhile envNameChar
            let r2 := r1.dropWhile envNameChar
            let r3 := r2.dropWhile jsSpace
            match r3 with
            | '=' :: r4 =>
              let r5 := r4.dropWhile jsSpace
              match r5 with
              | '"' :: r6 =>
                let v := r6.takeWhile (fun d => d ≠ '"')
                match r6.dropWhile (fun d => d ≠ '"') with
                | '"' :: r7 => if r7.isEmpty then some (name, v) else none
                | _ => none
              | _ => none
            | _ => none
          else none
        | [] => none
      else none
    | [] => none
  | _ => none

/-- The errors `validateExportCommands` records for one command. -/
def exportCommandErrors (cmd : Str) : List Str :=
  match parseExportCommand cmd with
  | none =>
    [lit "Invalid command format: '" ++ cmd ++
      lit "' does not match safe export pattern"]
  | some (varName, varValue) =>
    (if (strStarts varName (lit "FASTLY_") && regexEnvName varName) = false then
      [lit "Invalid environment variable name: '" ++ varName ++
        lit "' must start with 'FASTLY_' and contain only uppercase letters, numbers, and underscores"]
    else [])
    ++ (if strHasChar varValue '"' || strHasChar varValue '\\' ||
        strHasChar varValue '$' then
      [lit "Unsafe value in " ++ varName ++
        lit ": contains quotes, backslashes, or variable substitution"]
    else [])

/-- The warnings `validateExportCommands` records for one command. -/
def exportCommandWarnings (shell : Option Str) (cmd : Str) : List Str :=
  match parseExportCommand cmd with
  | none => []
  | some (varName, varValue) =>
    if escapeForFamily (shellFamily shell) varValue ≠ varValue then
      [lit "Value for " ++ varName ++ lit " contains shell metacharacters: " ++ varValue]
    else []

/-- `validateExportCommands`. -/
def validateExportCommands (shell : Option Str) (commands : List Str) :
    ValidationResult :=
  let errors := concatAll (commands.map exportCommandErrors)
  let warnings := concatAll (commands.map (exportCommandWarnings shell))
  { isValid := errors.isEmpty, errors := errors, warnings := warnings }

/-- The literal `export KEY="VALUE"` string the synthesizer emits. -/
def mkExportCommand (k v : Str) : Str :=
  lit "export " ++ k ++ lit "=\"" ++ v ++ lit "\""

/-- The `shouldExportKey` filter of `generateExportCommands`. -/
def shouldExportKey (exportKeys : Option (List Str)) (k : Str) : Bool :=
  match exportKeys with
  | none => true
  | some keys => keys.any (fun x => x = k)

/-- `generateExportCommands` on a `SetupConfig`. -/
def generateExportCommands (config : List (Str × Str))
    (exportKeys : Option (List Str)) : List Str :=
  config.filterMap (fun kv =>
    if kv.2.isEmpty = false ∧ shouldExportKey exportKeys kv.1 = true then
      some (mkExportCommand kv.1 kv.2)
    else none)

/-- `generateExportCommands` as invoked by `executeSetup` on the entries of
the decoded value. -/
def generateExportCommandsJson (entries : List (Str × Json))
    (exportKeys : Option (List Str)) : List Str :=
  entries.filterMap (fun kv =>
    if jsFalsy kv.2 = false ∧ shouldExportKey exportKeys kv.1 = true then
      some (mkExportCommand kv.1 (jsToString kv.2))
    else none)

/-! ## Environment diff engine (setup.ts lines 371–467) -/

/-- A token/credential-shaped key, as excluded by `analyzeSetupChanges`. -/
def isTokenKey (k : Str) : Bool :=
  strStarts k (lit "FASTLY_TOKEN") || strStarts k (lit "FASTLY_API_") ||
  strStarts k (lit "FASTLY_KEY_")

/-- The classification returned by `analyzeSetupChanges`. -/
structure SetupAnalysis where
  hasExisting : Bool
  existingVars : List Str
  newVars : List (Str × Str)
  changedVars : List (Str × Str × Str)
  unchangedVars : List (Str × Str)
deriving DecidableEq, Repr

/-- `process.env[key]` over the modelled environment. -/
def envGet (env : List (Str × Str)) (k : Str) : Option Str := env.lookup k

/-- JS strict equality between the live string and the decoded JSON value. -/
def jsonEqEnvVal (jv : Json) (ev : Str) : Bool :=
  match jv with
  | .str s => s = ev
  | _ => false

/-- `analyzeSetupChanges`, reading the live environment as an explicit list. -/
def analyzeSetupChanges (entries : List (Str × Json)) (env : List (Str × Str)) :
    SetupAnalysis :=
  let existingVars := (env.filter (fun kv =>
    strStarts kv.1 (lit "FASTLY_") && !kv.2.isEmpty &&
    !strStarts kv.1 (lit "FASTLY_TOKEN") && !strStarts kv.1 (lit "FASTLY_API_") &&
    !strStarts kv.1 (lit "FASTLY_KEY_"))).map Prod.fst
  let newVars := entries.filterMap (fun kv =>
    if jsFalsy kv.2 then none
    else
      match envGet env kv.1 with
      | none => some (kv.1, jsToString kv.2)
      | some ev => if ev.isEmpty then some (kv.1, jsToString kv.2) else none)
  let changedVars := entries.filterMap (fun kv =>
    if jsFalsy kv.2 then none
    else
      match envGet env kv.1 with
      | none => none
      | some ev =>
        if ev.isEmpty then none
        else if jsonEqEnvVal kv.2 ev then none
        else some (kv.1, ev, jsToString kv.2))
  let unchangedVars := entries.filterMap (fun kv =>
    if jsFalsy kv.2 then none
    else
      match envGet env kv.1 with
      | none => none
      | some ev =>
        if ev.isEmpty then none
        else if jsonEqEnvVal kv.2 ev then some (kv.1, jsToString kv.2) else none)
  { hasExisting := !existingVars.isEmpty
    existingVars := existingVars
    newVars := newVars
    changedVars := changedVars
    unchangedVars := unchangedVars }

/-- The keys `displaySetupDiff` prints: one line per new, changed and
unchanged entry (each line interpolates exactly its entry's key; the
`existingVars` enumeration is never printed). -/
def displayedKeys (analysis : SetupAnalysis) : List Str :=
  analysis.newVars.map Prod.fst ++ analysis.changedVars.map Prod.fst ++
    analysis.unchangedVars.map Prod.fst

/-! ## Shell config writer (setup.ts lines 493–523) -/

/-- The idempotency marker comment. -/
def shellConfigMarker : Str := lit "# bleurgh CLI environment variables"

/-- Result of `writeToShellConfig`: the file contents afterwards, whether
the duplicate warning fired, and whether an append happened. -/
structure WriteResult where
  fileAfter : Option Str
  warned : Bool
  wrote : Bool
deriving DecidableEq, Repr

/-- The marker-delimited block appended to the shell config file. -/
def shellConfigBlock (commands : List Str) : Str :=
  joinWith '\n'
    ([[]] ++ [shellConfigMarker] ++ commands ++
      [lit "# End " ++ shellConfigMarker] ++ [[]])

/-- `writeToShellConfig` over an abstract file state (`none` = missing). -/
def writeToShellConfig (file : Option Str) (commands : List Str) : WriteResult :=
  match file with
  | some content =>
    if containsSubstr content shellConfigMarker then
      { fileAfter := some content, warned := true, wrote := false }
    else
      { fileAfter := some (content ++ shellConfigBlock commands), warned := false,
        wrote := true }
  | none =>
    { fileAfter := some (shellConfigBlock commands), warned := false, wrote := true }

/-! ## Setup orchestrator (setup.ts lines 526–621) -/

/-- The caller-selected options of `executeSetup`. -/
structure SetupOptions where
  allowExecution : Bool
  force : Bool
  exportKeys : Option (List Str)

/-- Observable outcome of one `executeSetup` run. -/
structure SetupOutcome where
  exitCode : Option Nat
  diffShown : Bool
  shownKeys : List Str
  synthesized : Option (List Str)
  commandsPrinted : Bool
  fileAfter : Option Str
  fileWrote : Bool
  markerWarned : Bool
deriving Repr

/-- `executeSetup`: decode, diff, conflict stop, synthesize, validate,
materialize (print or file write). -/
def executeSetup (shell : Option Str) (encodedConfig : Str) (options : SetupOptions)
    (env : List (Str × Str)) (shellFile : Option Str) : SetupOutcome :=
  match decodeSetupString shell encodedConfig with
  | .error _ =>
    { exitCode := some 1, diffShown := false, shownKeys := [], synthesized := none,
      commandsPrinted := false, fileAfter := shellFile, fileWrote := false,
      markerWarned := false }
  | .ok config =>
    let entries := (jsEntries config).getD []
    let analysis := analyzeSetupChanges entries env
    if analysis.hasExisting = true ∧ options.force = false ∧
        analysis.changedVars ≠ [] then
      { exitCode := none, diffShown := true, shownKeys := displayedKeys analysis,
        synthesized := none, commandsPrinted := false, fileAfter := shellFile,
        fileWrote := false, markerWarned := false }
    else
      let transparencyDiff := analysis.hasExisting && analysis.changedVars.isEmpty
      let exportCommands := generateExportCommandsJson entries options.exportKeys
      let commandValidation := validateExportCommands shell exportCommands
      if commandValidation.isValid = false then
        { exitCode := some 1, diffShown := transparencyDiff,
          shownKeys := if transparencyDiff then displayedKeys analysis else [],
          synthesized := some exportCommands, commandsPrinted := false,
          fileAfter := shellFile, fileWrote := false, markerWarned := false }
      else if options.allowExecution = false then
        { exitCode := none, diffShown := transparencyDiff,
          shownKeys := if transparencyDiff then displayedKeys analysis else [],
          synthesized := some exportCommands, commandsPrinted := true,
          fileAfter := shellFile, fileWrote := false, markerWarned := false }
      else
        let w := writeToShellConfig shellFile exportCommands
        { exitCode := none, diffShown := transparencyDiff,
          shownKeys := if transparencyDiff then displayedKeys analysis else [],
          synthesized := some exportCommands, commandsPrinted := false,
          fileAfter := w.fileAfter, fileWrote := w.wrote, markerWarned := w.warned }

/-! ## Supporting lemmas -/

theorem concatAll_eq_nil {α} (ls : List (List α)) :
    concatAll ls = [] ↔ ∀ l ∈ ls, l = [] := by
  induction ls with
  | nil => simp [concatAll]
  | cons l ls ih =>
    simp [concatAll, List.append_eq_nil, ih]

theorem containsSubstr_mem (hay needle : Str)
    (h : containsSubstr hay needle = true) : ∀ c ∈ needle, c ∈ hay := by
  induction hay with
  | nil =>
    rw [containsSubstr] at h
    intro c hc
    split at h
    · next hp =>
      have := List.isPrefixOf_iff_prefix.mp hp
      have hnil : needle = [] := List.prefix_nil.mp this
      subst hnil
      simp at hc
    · simp at h
  | cons a t ih =>
    rw [containsSubstr] at h
    intro c hc
    split at h
    · next hp =>
      have hpre := List.isPrefixOf_iff_prefix.mp hp
      exact hpre.subset hc
    · exact List.mem_cons_of_mem a (ih h c hc)

theorem containsSubstr_nil_needle (hay : Str) : containsSubstr hay [] = true := by
  cases hay <;> rw [containsSubstr.eq_def] <;> simp [List.isPrefixOf_iff_prefix]

theorem containsSubstr_append_left (a b needle : Str)
    (h : containsSubstr a needle = true) : containsSubstr (a ++ b) needle = true := by
  induction a with
  | nil =>
    rw [containsSubstr.eq_def] at h
    split at h
    · next hp =>
      have := List.isPrefixOf_iff_prefix.mp hp
      have hnil : needle = [] := List.prefix_nil.mp this
      subst hnil
      exact containsSubstr_nil_needle b
    · simp at h
  | cons x t ih =>
    rw [containsSubstr] at h
    rw [List.cons_append, containsSubstr]
    split at h
    · next hp =>
      have hpre := List.isPrefixOf_iff_prefix.mp hp
      have hext : needle <+: x :: (t ++ b) := by
        rw [← List.cons_append]
        exact hpre.trans (List.prefix_append _ _)
      rw [if_pos (List.isPrefixOf_iff_prefix.mpr hext)]
    · split
      · rfl
      · exact ih h

theorem strStarts_append (a b : Str) : strStarts (a ++ b) a = true := by
  simp [strStarts, List.isPrefixOf_iff_prefix]

theorem strStarts_iff (hay pre : Str) : strStarts hay pre = true ↔ pre <+: hay := by
  simp [strStarts, List.isPrefixOf_iff_prefix]

theorem takeWhile_append_all (p : Char → Bool) (k rest : Str)
    (h : ∀ c ∈ k, p c = true) :
    (k ++ rest).takeWhile p = k ++ rest.takeWhile p := by
  induction k with
  | nil => simp
  | cons c t ih =>
    have hc : p c = true := h c (by simp)
    simp [List.takeWhile_cons, hc, ih (fun c' hc' => h c' (by simp [hc']))]

theorem dropWhile_append_all (p : Char → Bool) (k rest : Str)
    (h : ∀ c ∈ k, p c = true) :
    (k ++ rest).dropWhile p = rest.dropWhile p := by
  induction k with
  | nil => simp
  | cons c t ih =>
    have hc : p c = true := h c (by simp)
    simp [List.dropWhile_cons, hc, ih (fun c' hc' => h c' (by simp [hc']))]

theorem takeWhile_cons_neg (p : Char → Bool) (c : Char) (l : Str) (h : p c = false) :
    (c :: l).takeWhile p = [] := by
  simp [List.takeWhile_cons, h]

theorem dropWhile_cons_neg (p : Char → Bool) (c : Char) (l : Str) (h : p c = false) :
    (c :: l).dropWhile p = c :: l := by
  simp [List.dropWhile_cons, h]

theorem escapeChars_length (special : Char → Bool) (v : Str) :
    (escapeChars special v).length = v.length + v.countP special := by
  induction v with
  | nil => rfl
  | cons c t ih =>
    by_cases hc : special c = true
    · simp [escapeChars, hc, ih, List.countP_cons, List.length_append]
      omega
    · simp at hc
      simp [escapeChars, hc, ih, List.countP_cons, List.length_append]
      omega

theorem escapeChars_eq_self (special : Char → Bool) (v : Str)
    (h : escapeChars special v = v) : ∀ c ∈ v, special c = false := by
  have hlen := escapeChars_length special v
  rw [h] at hlen
  have hcount : v.countP special = 0 := by omega
  intro c hc
  have := List.countP_eq_zero.mp hcount c hc
  simpa using this

theorem escapeChars_id (special : Char → Bool) (v : Str)
    (h : ∀ c ∈ v, special c = false) : escapeChars special v = v := by
  induction v with
  | nil => rfl
  | cons c t ih =>
    have hc := h c (by simp)
    simp [escapeChars, hc, ih (fun c' hc' => h c' (by simp [hc']))]

theorem any_false_of_all (p : Char → Bool) (v : Str)
    (h : ∀ c ∈ v, p c = false) : v.any p = false := by
  simp [List.any_eq_false]
  intro c hc
  simp [h c hc]

theorem splitOnLineTerm_no_term (v : Str) (h : ∀ c ∈ v, lineTerm c = false) :
    splitOnLineTerm v = [v] := by
  induction v with
  | nil => rfl
  | cons c t ih =>
    have hc := h c (by simp)
    rw [splitOnLineTerm, if_neg (by simp [hc]),
      ih (fun c' hc' => h c' (by simp [hc']))]

theorem strStarts_append_of (a b pre : Str) (h : strStarts a pre = true) :
    strStarts (a ++ b) pre = true := by
  rw [strStarts_iff] at h ⊢
  exact h.trans (List.prefix_append a b)

theorem no_char_of_any_false (p : Char → Bool) (v : Str) (c0 : Char)
    (hp : p c0 = true) (h : v.any p = false) : strHasChar v c0 = false := by
  rw [strHasChar]
  apply any_false_of_all
  intro c hc
  have hcp := List.any_eq_false.mp h c hc
  by_contra hne
  simp only [Bool.not_eq_false, decide_eq_true_eq] at hne
  subst hne
  exact hcp hp

theorem validateEntries_isValid_iff (shell : Option Str) (entries : List (Str × Json)) :
    (validateEntries shell entries).isValid = true ↔
      ∀ kv ∈ entries, entryErrors shell kv.1 kv.2 = [] := by
  simp only [validateEntries]
  rw [List.isEmpty_iff, concatAll_eq_nil]
  constructor
  · intro h kv hkv
    exact h _ (List.mem_map.mpr ⟨kv, hkv, rfl⟩)
  · intro h l hl
    obtain ⟨kv, hkv, rfl⟩ := List.mem_map.mp hl
    exact h kv hkv

theorem entryErrors_decomp (shell : Option Str) (name : Str) (jv : Json)
    (hf : jsFalsy jv = false) (h : entryErrors shell name jv = []) :
    validEnvVarName name = true ∧ jsLengthGt1000 jv = false ∧
    checkDangerousPatterns (jsToString jv) name = [] ∧
    checkShellInjection shell (jsToString jv) name = [] ∧
    validateFieldFormat name (jsToString jv) = [] := by
  rw [entryErrors, if_neg (by simp [hf])] at h
  by_cases hv : validEnvVarName name = false
  · rw [if_pos hv] at h
    exact absurd h (List.cons_ne_nil _ _)
  · rw [if_neg hv] at h
    simp only [List.append_eq_nil] at h
    obtain ⟨⟨⟨hlen, hdang⟩, hinj⟩, hfmt⟩ := h
    refine ⟨by simpa using hv, ?_, hdang, hinj, hfmt⟩
    by_contra hl
    simp only [Bool.not_eq_false] at hl
    rw [if_pos hl] at hlen
    exact List.cons_ne_nil _ _ hlen

theorem validEnvVarName_head (name : Str) (h : validEnvVarName name = true) :
    ∃ tl, name = 'F' :: tl := by
  rw [validEnvVarName, Bool.and_eq_true] at h
  obtain ⟨tl2, htl⟩ := (strStarts_iff _ _).mp h.1
  have hF : lit "FASTLY_" = 'F' :: lit "ASTLY_" := rfl
  rw [hF, List.cons_append] at htl
  exact ⟨_, htl.symm⟩

theorem validEnvVarName_chars (name : Str) (h : validEnvVarName name = true) :
    ∀ c ∈ name, envNameChar c = true := by
  rw [validEnvVarName, Bool.and_eq_true] at h
  have hr := h.2
  cases name with
  | nil => simp [regexEnvName] at hr
  | cons c rest =>
    rw [regexEnvName, Bool.and_eq_true] at hr
    intro d hd
    rcases List.mem_cons.mp hd with rfl | hdm
    · have hs := hr.1
      rw [envNameStart, Bool.or_eq_true] at hs
      rw [envNameChar]
      rcases hs with h1 | h1 <;> simp [h1]
    · exact (List.all_eq_true.mp hr.2) d hdm

theorem validEnvVarName_not_serviceNames (name : Str)
    (h : validEnvVarName name = true) :
    containsSubstr name (lit "ServiceNames") = false := by
  by_contra hc
  simp only [Bool.not_eq_false] at hc
  have hmem := containsSubstr_mem name (lit "ServiceNames") hc 'e' (by decide)
  have he := validEnvVarName_chars name h 'e' hmem
  exact absurd he (by decide)

theorem checkDangerousPatterns_nil (value fieldName : Str)
    (h : checkDangerousPatterns value fieldName = []) :
    value.any dangerousChar = false ∧ hasControlCharacters value = false := by
  simp only [checkDangerousPatterns, List.append_eq_nil] at h
  obtain ⟨⟨⟨⟨⟨h1, h2⟩, h3⟩, h4⟩, h5⟩, h6⟩ := h
  constructor
  · by_contra ha
    simp only [Bool.not_eq_false] at ha
    rw [ha] at h1
    split at h1 <;> simp_all
  · by_contra ha
    simp only [Bool.not_eq_false] at ha
    rw [if_pos ha] at h6
    exact List.cons_ne_nil _ _ h6

theorem checkShellInjection_nil_escaped (shell : Option Str) (value fieldName : Str)
    (hsn : containsSubstr fieldName (lit "ServiceNames") = false)
    (h : checkShellInjection shell value fieldName = []) :
    escapeForFamily (shellFamily shell) value = value := by
  simp only [checkShellInjection, List.append_eq_nil] at h
  obtain ⟨h1, h2⟩ := h
  by_contra hne
  rw [if_pos ⟨hne, hsn⟩] at h1
  exact List.cons_ne_nil _ _ h1

theorem escapeForFamily_no_quote (fam : ShellFamily) (v : Str)
    (h : escapeForFamily fam v = v) :
    strHasChar v '"' = false ∧ strHasChar v '\\' = false := by
  cases fam <;>
  · have hall := escapeChars_eq_self _ v h
    constructor <;>
    · rw [strHasChar]
      apply any_false_of_all
      intro c hc
      have hcs := hall c hc
      by_contra hne
      simp only [Bool.not_eq_false, decide_eq_true_eq] at hne
      subst hne
      exact absurd hcs (by decide)

theorem utf16Length_eq_length (s : Str) (h : ∀ c ∈ s, c.toNat < 65536) :
    utf16Length s = s.length := by
  induction s with
  | nil => rfl
  | cons c rest ih =>
    rw [utf16Length, if_pos (h c (by simp)),
      ih (fun c2 hc2 => h c2 (by simp [hc2])), List.length_cons]
    omega

theorem entryErrors_str_nil (shell : Option Str) (k v : Str)
    (hn : validEnvVarName k = true)
    (h : v ≠ [] → utf16Length v ≤ 1000 ∧ checkDangerousPatterns v k = [] ∧
      checkShellInjection shell v k = [] ∧ validateFieldFormat k v = []) :
    entryErrors shell k (Json.str v) = [] := by
  by_cases hv : v = []
  · subst hv
    rw [entryErrors, if_pos (by simp [jsFalsy])]
  · obtain ⟨hl, hd, hs, hf⟩ := h hv
    rw [entryErrors, if_neg (by simp [jsFalsy, hv]), if_neg (by simp [hn])]
    have hgt : jsLengthGt1000 (Json.str v) = false := by
      simp only [jsLengthGt1000, decide_eq_false_iff_not]
      omega
    rw [if_neg (by simp [hgt])]
    simp only [jsToString, hd, hs, hf, List.append_nil, List.nil_append]

theorem parseExportCommand_mk (k v : Str) (hk : validEnvVarName k = true)
    (hq : strHasChar v '"' = false) :
    parseExportCommand (mkExportCommand k v) = some (k, v) := by
  have hkchars := validEnvVarName_chars k hk
  obtain ⟨ktl, hkF⟩ := validEnvVarName_head k hk
  subst hkF
  have hktl : ∀ c ∈ ktl, envNameChar c = true := fun c hc => hkchars c (by simp [hc])
  have hvq : ∀ c ∈ v, decide (c ≠ '"') = true := by
    intro c hc
    rw [strHasChar] at hq
    have hcq := List.any_eq_false.mp hq c hc
    simp only [decide_eq_true_eq] at hcq ⊢
    exact hcq
  have hcmd : mkExportCommand ('F' :: ktl) v =
      'e':: 'x':: 'p':: 'o':: 'r':: 't':: ' ':: 'F'::(ktl ++ '=':: '"'::(v ++ ['"'])) := by
    have e1 : lit "export " = 'e':: 'x':: 'p':: 'o':: 'r':: 't'::[' '] := rfl
    have e2 : lit "=\"" = '='::['"'] := rfl
    have e3 : lit "\"" = ['"'] := rfl
    simp [mkExportCommand, e1, e2, e3, List.append_assoc]
  have h1 : List.dropWhile jsSpace (' ':: 'F'::(ktl ++ '=':: '"'::(v ++ ['"'])))
      = 'F'::(ktl ++ '=':: '"'::(v ++ ['"'])) := by
    rw [List.dropWhile_cons, if_pos (by decide), List.dropWhile_cons,
      if_neg (by decide)]
  have h2 : List.takeWhile envNameChar ('F'::(ktl ++ '=':: '"'::(v ++ ['"'])))
      = 'F' :: ktl := by
    rw [List.takeWhile_cons, if_pos (by decide),
      takeWhile_append_all envNameChar ktl _ hktl,
      takeWhile_cons_neg envNameChar '=' _ (by decide), List.append_nil]
  have h3 : List.dropWhile envNameChar ('F'::(ktl ++ '=':: '"'::(v ++ ['"'])))
      = '=':: '"'::(v ++ ['"']) := by
    rw [List.dropWhile_cons, if_pos (by decide),
      dropWhile_append_all envNameChar ktl _ hktl,
      dropWhile_cons_neg envNameChar '=' _ (by decide)]
  have h4 : List.dropWhile jsSpace ('=':: '"'::(v ++ ['"'])) = '=':: '"'::(v ++ ['"']) :=
    dropWhile_cons_neg _ _ _ (by decide)
  have h5 : List.dropWhile jsSpace ('"'::(v ++ ['"'])) = '"'::(v ++ ['"']) :=
    dropWhile_cons_neg _ _ _ (by decide)
  have h6 : List.takeWhile (fun d => d ≠ '"') (v ++ ['"']) = v := by
    rw [takeWhile_append_all _ v _ hvq, takeWhile_cons_neg _ _ _ (by decide),
      List.append_nil]
  have h7 : List.dropWhile (fun d => d ≠ '"') (v ++ ['"']) = ['"'] := by
    rw [dropWhile_append_all _ v _ hvq, dropWhile_cons_neg _ _ _ (by decide)]
  rw [hcmd, parseExportCommand.eq_def]
  simp only [h1, h2, h3, h4, h5, h6, h7]
  rw [if_pos (by decide), if_pos (by decide)]
  simp [h2, h3, h4, h5, h6, h7]

theorem exportCommandErrors_mk (k v : Str) (hk : validEnvVarName k = true)
    (hq : strHasChar v '"' = false) (hb : strHasChar v '\\' = false)
    (hd : strHasChar v '$' = false) :
    exportCommandErrors (mkExportCommand k v) = [] := by
  rw [exportCommandErrors, parseExportCommand_mk k v hk hq]
  rw [validEnvVarName] at hk
  simp [hk, hq, hb, hd]

theorem mem_generateExportCommandsJson (entries : List (Str × Json))
    (keys : Option (List Str)) (cmd : Str)
    (h : cmd ∈ generateExportCommandsJson entries keys) :
    ∃ kv ∈ entries, jsFalsy kv.2 = false ∧
      cmd = mkExportCommand kv.1 (jsToString kv.2) := by
  rw [generateExportCommandsJson] at h
  obtain ⟨kv, hmem, hf⟩ := List.mem_filterMap.mp h
  by_cases hc : jsFalsy kv.2 = false ∧ shouldExportKey keys kv.1 = true
  · rw [if_pos hc] at hf
    exact ⟨kv, hmem, hc.1, (Option.some_inj.mp hf).symm⟩
  · rw [if_neg hc] at hf
    exact absurd hf (by simp)

theorem generated_commands_valid (shell : Option Str) (entries : List (Str × Json))
    (keys : Option (List Str))
    (hv : (validateEntries shell entries).isValid = true) :
    (validateExportCommands shell
      (generateExportCommandsJson entries keys)).isValid = true := by
  have hall : ∀ cmd ∈ generateExportCommandsJson entries keys,
      exportCommandErrors cmd = [] := by
    intro cmd hcmd
    obtain ⟨kv, hmem, hf, rfl⟩ := mem_generateExportCommandsJson entries keys cmd hcmd
    have hent := (validateEntries_isValid_iff shell entries).mp hv kv hmem
    obtain ⟨hname, hlen, hdang, hinj, hfmt⟩ :=
      entryErrors_decomp shell kv.1 kv.2 hf hent
    have hsn := validEnvVarName_not_serviceNames kv.1 hname
    have hesc := checkShellInjection_nil_escaped shell (jsToString kv.2) kv.1 hsn hinj
    have hqb := escapeForFamily_no_quote (shellFamily shell) (jsToString kv.2) hesc
    have hdp := checkDangerousPatterns_nil (jsToString kv.2) kv.1 hdang
    have hdol := no_char_of_any_false dangerousChar (jsToString kv.2) '$'
      (by decide) hdp.1
    exact exportCommandErrors_mk kv.1 (jsToString kv.2) hname hqb.1 hqb.2 hdol
  simp only [validateExportCommands]
  rw [List.isEmpty_iff, concatAll_eq_nil]
  intro l hl
  obtain ⟨cmd, hcm, rfl⟩ := List.mem_map.mp hl
  exact hall cmd hcm

theorem decode_encode (shell : Option Str) (cfg : List (Str × Str))
    (hnd : (cfg.map Prod.fst).Nodup) :
    decodeSetupString shell (encodeSetupString cfg) =
      if (validateSetupConfig shell cfg).isValid then Except.ok (Json.obj (objOf cfg))
      else Except.error
        (lit "Invalid setup configuration: Security validation failed: " ++
          joinCommaSpace (validateSetupConfig shell cfg).errors) := by
  have hb : utf8Decode (decodeB64 (encodeSetupString cfg)) = jsonStringify cfg := by
    rw [encodeSetupString, decodeB64_encodeB64 _ (utf8Encode_lt _), utf8Decode_utf8Encode]
  simp only [decodeSetupString, hb, jsonParse_stringify cfg hnd, jsEntries]
  rfl

theorem decodeSetupString_error_prefix (shell : Option Str) (enc e : Str)
    (h : decodeSetupString shell enc = .error e) :
    strStarts e (lit "Invalid setup configuration: ") = true := by
  simp only [decodeSetupString] at h
  split at h
  · injection h with he
    subst he
    exact strStarts_append (lit "Invalid setup configuration: ") _
  · split at h
    · injection h with he
      subst he
      decide
    · split at h
      · exact Except.noConfusion h
      · injection h with he
        subst he
        exact strStarts_append_of _ _ _ (by decide)

theorem mem_of_strHasChar (v : Str) (c : Char) (h : strHasChar v c = true) : c ∈ v := by
  rw [strHasChar] at h
  obtain ⟨d, hd, hdc⟩ := List.any_eq_true.mp h
  simp only [decide_eq_true_eq] at hdc
  subst hdc
  exact hd

theorem mem_concatAll {α} (ls : List (List α)) (l : List α) (x : α)
    (hl : l ∈ ls) (hx : x ∈ l) : x ∈ concatAll ls := by
  induction ls with
  | nil => simp at hl
  | cons a t ih =>
    rw [concatAll]
    rcases List.mem_cons.mp hl with rfl | hm
    · exact List.mem_append_left _ hx
    · exact List.mem_append_right _ (ih hm)

theorem containsSubstr_append_right (a b needle : Str)
    (h : containsSubstr b needle = true) : containsSubstr (a ++ b) needle = true := by
  induction a with
  | nil => simpa using h
  | cons x t ih =>
    rw [List.cons_append, containsSubstr]
    split
    · rfl
    · exact ih

theorem containsSubstr_self_append (a b : Str) : containsSubstr (a ++ b) a = true := by
  cases a with
  | nil => exact containsSubstr_nil_needle b
  | cons x t =>
    rw [List.cons_append, containsSubstr]
    have hp : (x :: t) <+: (x :: (t ++ b)) := by
      rw [← List.cons_append]
      exact List.prefix_append _ _
    rw [if_pos (List.isPrefixOf_iff_prefix.mpr hp)]

theorem entryErrors_ne_nil_of_dangerous (shell : Option Str) (K v : Str)
    (hd : v.any dangerousChar = true ∨ hasControlCharacters v = true) :
    entryErrors shell K (Json.str v) ≠ [] := by
  intro h
  have hne : v ≠ [] := by
    rcases hd with hd | hd
    · obtain ⟨c, hc, _⟩ := List.any_eq_true.mp hd
      exact List.ne_nil_of_mem hc
    · rw [hasControlCharacters] at hd
      obtain ⟨c, hc, _⟩ := List.any_eq_true.mp hd
      exact List.ne_nil_of_mem hc
  have hf : jsFalsy (Json.str v) = false := by
    simp [jsFalsy, hne]
  obtain ⟨hname, hlen, hdang, hinj, hfmt⟩ := entryErrors_decomp shell K (Json.str v) hf h
  have hnil := checkDangerousPatterns_nil v K (by simpa [jsToString] using hdang)
  rcases hd with hd | hd
  · rw [hnil.1] at hd
    exact Bool.false_ne_true hd
  · rw [hnil.2] at hd
    exact Bool.false_ne_true hd

theorem validateExportCommands_isValid_iff (shell : Option Str) (cmds : List Str) :
    (validateExportCommands shell cmds).isValid = true ↔
      ∀ cmd ∈ cmds, exportCommandErrors cmd = [] := by
  simp only [validateExportCommands]
  rw [List.isEmpty_iff, concatAll_eq_nil]
  constructor
  · intro h cmd hc
    exact h _ (List.mem_map.mpr ⟨cmd, hc, rfl⟩)
  · intro h l hl
    obtain ⟨cmd, hc, rfl⟩ := List.mem_map.mp hl
    exact h cmd hc

/-- C2: for every key `K` and every value containing `$(`, a backtick, `;`,
`|`, `&`, or a control byte, `validateSetupConfig` on any configuration
containing the entry `(K, value)` reports `isValid = false`, and
`decodeSetupString (encodeSetupString [(K, value)])` fails with an error whose
message contains `Security validation failed`. -/
theorem C2_injection_rejection (shell : Option Str) (K v : Str)
    (cfg : List (Str × Str)) (hmem : (K, v) ∈ cfg)
    (htrig : containsSubstr v (lit "$(") = true ∨ strHasChar v btick = true ∨
      strHasChar v ';' = true ∨ strHasChar v '|' = true ∨
      strHasChar v '&' = true ∨ hasControlCharacters v = true) :
    (validateSetupConfig shell cfg).isValid = false ∧
    ∃ e, decodeSetupString shell (encodeSetupString [(K, v)]) = Except.error e ∧
      containsSubstr e (lit "Security validation failed") = true := by
  have hd : v.any dangerousChar = true ∨ hasControlCharacters v = true := by
    rcases htrig with h | h | h | h | h | h
    · exact Or.inl (List.any_eq_true.mpr
        ⟨'$', containsSubstr_mem v _ h '$' (by decide), by decide⟩)
    · exact Or.inl (List.any_eq_true.mpr ⟨btick, mem_of_strHasChar v _ h, by decide⟩)
    · exact Or.inl (List.any_eq_true.mpr ⟨';', mem_of_strHasChar v _ h, by decide⟩)
    · exact Or.inl (List.any_eq_true.mpr ⟨'|', mem_of_strHasChar v _ h, by decide⟩)
    · exact Or.inl (List.any_eq_true.mpr ⟨'&', mem_of_strHasChar v _ h, by decide⟩)
    · exact Or.inr h
  have hne := entryErrors_ne_nil_of_dangerous shell K v hd
  have hinv : ∀ cfg2 : List (Str × Str), (K, v) ∈ cfg2 →
      (validateSetupConfig shell cfg2).isValid = false := by
    intro cfg2 hm2
    by_contra hv
    simp only [Bool.not_eq_false] at hv
    rw [validateSetupConfig] at hv
    exact hne ((validateEntries_isValid_iff shell _).mp hv (K, Json.str v)
      (List.mem_map.mpr ⟨(K, v), hm2, rfl⟩))
  refine ⟨hinv cfg hmem, ?_⟩
  rw [decode_encode shell [(K, v)] (by simp),
    if_neg (by simp [hinv [(K, v)] (by simp)])]
  exact ⟨_, rfl, containsSubstr_append_left _ _ _ (by decide)⟩

/-- C2 witness: the repository's own test value `service$(whoami)` under key
`FASTLY_DEV_SERVICE_IDS` is rejected and the decode error names the security
taxonomy. -/
theorem C2_injection_rejection_witness :
    (validateSetupConfig none
      [(lit "FASTLY_DEV_SERVICE_IDS", lit "service$(whoami)")]).isValid = false ∧
    ∃ e, decodeSetupString none (encodeSetupString
        [(lit "FASTLY_DEV_SERVICE_IDS", lit "service$(whoami)")]) = Except.error e ∧
      containsSubstr e (lit "Security validation failed") = true :=
  C2_injection_rejection none (lit "FASTLY_DEV_SERVICE_IDS") (lit "service$(whoami)")
    [(lit "FASTLY_DEV_SERVICE_IDS", lit "service$(whoami)")] (by simp)
    (Or.inl (by decide))

/-- C5 counterexample: `"NQ"` base64-decodes to the single byte `5`, whose
UTF-8 text `5` is valid JSON but is not a flat object of string entries, yet
`decodeSetupString` succeeds instead of failing. -/
theorem C5_counterexample :
    decodeSetupString none (lit "NQ") = Except.ok (Json.num (lit "5")) ∧
    (∀ l, Json.num (lit "5") ≠ Json.obj l) := by
  refine ⟨rfl, ?_⟩
  intro l h
  exact Json.noConfusion h

/-- C5 amended: when the decoded text is not parseable as JSON at all,
`decodeSetupString` fails with the generic wrapped message, and every error
`decodeSetupString` ever produces starts with `Invalid setup configuration: `,
so no raw parser exception escapes. -/
theorem C5_generic_decode_errors (shell : Option Str) (s : Str) :
    (jsonParse (utf8Decode (decodeB64 s)) = none →
      decodeSetupString shell s =
        Except.error (lit "Invalid setup configuration: " ++ jsonParseErrCause)) ∧
    (∀ e, decodeSetupString shell s = Except.error e →
      strStarts e (lit "Invalid setup configuration: ") = true) := by
  constructor
  · intro h
    simp only [decodeSetupString, h]
  · intro e h
    exact decodeSetupString_error_prefix shell s e h

/-- C5 amended witness: the non-base64 string `!!!` fails with the wrapped
generic parse error. -/
theorem C5_generic_decode_errors_witness :
    decodeSetupString none (lit "!!!") =
      Except.error (lit "Invalid setup configuration: " ++ jsonParseErrCause) :=
  (C5_generic_decode_errors none (lit "!!!")).1 (by rfl)

/-- C6: `validateExportCommands` is valid exactly when no command errs; a
command that does not parse against the strict export pattern yields a
`does not match safe export pattern` error (in particular the unquoted
`export NS_TOKEN=test-token-123`); a parsed command with a non-conforming
name yields the naming error; a parsed command whose value contains a double
quote, backslash or dollar sign yields the unsafe-value error. -/
theorem C6_export_command_validation (shell : Option Str) (cmds : List Str) :
    ((validateExportCommands shell cmds).isValid = true ↔
      ∀ cmd ∈ cmds, exportCommandErrors cmd = []) ∧
    (∀ cmd ∈ cmds, parseExportCommand cmd = none →
      ∃ e ∈ (validateExportCommands shell cmds).errors,
        containsSubstr e (lit "does not match safe export pattern") = true) ∧
    (∀ cmd ∈ cmds, ∀ nm vl, parseExportCommand cmd = some (nm, vl) →
      validEnvVarName nm = false →
      ∃ e ∈ (validateExportCommands shell cmds).errors,
        containsSubstr e (lit "must start with 'FASTLY_'") = true) ∧
    (∀ cmd ∈ cmds, ∀ nm vl, parseExportCommand cmd = some (nm, vl) →
      (strHasChar vl '"' || strHasChar vl '\\' || strHasChar vl '$') = true →
      ∃ e ∈ (validateExportCommands shell cmds).errors,
        containsSubstr e
          (lit "contains quotes, backslashes, or variable substitution") = true) ∧
    ((validateExportCommands shell
        [lit "export NS_TOKEN=test-token-123"]).isValid = false ∧
      ∃ e ∈ (validateExportCommands shell
          [lit "export NS_TOKEN=test-token-123"]).errors,
        containsSubstr e (lit "does not match safe export pattern") = true) := by
  have hlift : ∀ (cmd : Str), cmd ∈ cmds → ∀ e ∈ exportCommandErrors cmd,
      e ∈ (validateExportCommands shell cmds).errors := by
    intro cmd hc e he
    simp only [validateExportCommands]
    exact mem_concatAll _ _ _ (List.mem_map.mpr ⟨cmd, hc, rfl⟩) he
  refine ⟨validateExportCommands_isValid_iff shell cmds, ?_, ?_, ?_, ?_⟩
  · intro cmd hc hp
    refine ⟨lit "Invalid command format: '" ++ cmd ++
      lit "' does not match safe export pattern", hlift cmd hc _ ?_, ?_⟩
    · rw [exportCommandErrors, hp]
      exact List.mem_singleton_self _
    · exact containsSubstr_append_right _ _ _ (by decide)
  · intro cmd hc nm vl hp hn
    refine ⟨lit "Invalid environment variable name: '" ++ nm ++
      lit "' must start with 'FASTLY_' and contain only uppercase letters, numbers, and underscores",
      hlift cmd hc _ ?_, ?_⟩
    · rw [exportCommandErrors, hp]
      apply List.mem_append_left
      rw [validEnvVarName] at hn
      rw [if_pos hn]
      exact List.mem_singleton_self _
    · exact containsSubstr_append_right _ _ _ (by decide)
  · intro cmd hc nm vl hp hu
    refine ⟨lit "Unsafe value in " ++ nm ++
      lit ": contains quotes, backslashes, or variable substitution",
      hlift cmd hc _ ?_, ?_⟩
    · rw [exportCommandErrors, hp]
      apply List.mem_append_right
      rw [if_pos hu]
      exact List.mem_singleton_self _
    · exact containsSubstr_append_right _ _ _ (by decide)
  · constructor
    · simp only [validateExportCommands]
      decide
    · refine ⟨lit "Invalid command format: 'export NS_TOKEN=test-token-123' does not match safe export pattern", ?_, by decide⟩
      simp only [validateExportCommands]
      decide

/-- C6 witness: the scenario command list consisting of the unquoted
`export NS_TOKEN=test-token-123` is invalid with the format-mismatch error. -/
theorem C6_export_command_validation_witness :
    (validateExportCommands none
        [lit "export NS_TOKEN=test-token-123"]).isValid = false ∧
    ∃ e ∈ (validateExportCommands none
        [lit "export NS_TOKEN=test-token-123"]).errors,
      containsSubstr e (lit "does not match safe export pattern") = true :=
  (C6_export_command_validation none []).2.2.2.2

/-- C4: the source tags display-name fields by testing the camel-case
substring `ServiceNames` against the environment-variable name, but a
well-formed key such as `FASTLY_DEV_SERVICE_NAMES` is upper-case with
underscores, so the exemption never applies and a conforming display-name
value containing spaces (the repository's own `.env.example` value
`Dev Frontend,Dev API`) is rejected by `validateSetupConfig`, contradicting
the claimed space exemption. -/
theorem C4_display_name_exemption_dead :
    validEnvVarName (lit "FASTLY_DEV_SERVICE_NAMES") = true ∧
    strEnds (lit "FASTLY_DEV_SERVICE_NAMES") (lit "_SERVICE_NAMES") = true ∧
    validateServiceNamesFormat (lit "FASTLY_DEV_SERVICE_NAMES")
      (lit "Dev Frontend,Dev API") = [] ∧
    containsSubstr (lit "FASTLY_DEV_SERVICE_NAMES") (lit "ServiceNames") = false ∧
    (validateSetupConfig none
      [(lit "FASTLY_DEV_SERVICE_NAMES", lit "Dev Frontend,Dev API")]).isValid
      = false ∧
    ∃ e ∈ (validateSetupConfig none
        [(lit "FASTLY_DEV_SERVICE_NAMES", lit "Dev Frontend,Dev API")]).errors,
      containsSubstr e
        (lit "contains shell metacharacters that require escaping") = true := by
  refine ⟨by decide, by decide, by decide, by decide, by decide, ?_⟩
  refine ⟨lit "Security violation in FASTLY_DEV_SERVICE_NAMES: contains shell metacharacters that require escaping", by decide, by decide⟩

/-- C10: each validator's verdict, errors and warnings are a function only of
its input and of the shell family resolved from the `SHELL` value; two `SHELL`
values resolving to the same family yield identical `ValidationResult`s (in
particular two runs under one unchanged `SHELL` agree), and an unrecognized
shell basename falls back to the bash family rather than erroring. -/
theorem C10_validator_determinism (s1 s2 : Option Str) (cfg : List (Str × Str))
    (cmds : List Str) (h : shellFamily s1 = shellFamily s2) :
    validateSetupConfig s1 cfg = validateSetupConfig s2 cfg ∧
    validateExportCommands s1 cmds = validateExportCommands s2 cmds ∧
    (∀ p : Str, supportedShellLookup (pathBasename p) = none →
      shellFamily (some p) = ShellFamily.bash) := by
  refine ⟨?_, ?_, ?_⟩
  · have he : ∀ (n : Str) (jv : Json), entryErrors s1 n jv = entryErrors s2 n jv := by
      intro n jv
      simp only [entryErrors, checkShellInjection, h]
    simp only [validateSetupConfig, validateEntries, he]
  · have hw : exportCommandWarnings s1 = exportCommandWarnings s2 := by
      funext c
      simp only [exportCommandWarnings, h]
    simp only [validateExportCommands, hw]
  · intro p hp
    rw [shellFamily, show (some p).getD (lit "/bin/bash") = p from rfl, hp]
    rfl

/-- C10 witness: `/bin/zsh` and `/usr/bin/bash` resolve to the same family, so
the validators agree on a concrete configuration and command list. -/
theorem C10_validator_determinism_witness :
    validateSetupConfig (some (lit "/bin/zsh"))
        [(lit "FASTLY_SUBDOMAIN", lit "my host")] =
      validateSetupConfig (some (lit "/usr/bin/bash"))
        [(lit "FASTLY_SUBDOMAIN", lit "my host")] ∧
    validateExportCommands (some (lit "/bin/zsh")) [lit "export FASTLY_A=\"b\""] =
      validateExportCommands (some (lit "/usr/bin/bash"))
        [lit "export FASTLY_A=\"b\""] ∧
    (∀ p : Str, supportedShellLookup (pathBasename p) = none →
      shellFamily (some p) = ShellFamily.bash) :=
  C10_validator_determinism (some (lit "/bin/zsh")) (some (lit "/usr/bin/bash"))
    [(lit "FASTLY_SUBDOMAIN", lit "my host")] [lit "export FASTLY_A=\"b\""]
    (by decide)

theorem generateExportCommands_eq_json (cfg : List (Str × Str))
    (keys : Option (List Str)) :
    generateExportCommands cfg keys = generateExportCommandsJson (objOf cfg) keys := by
  induction cfg with
  | nil => rfl
  | cons kv tl ih =>
    simp only [generateExportCommands, generateExportCommandsJson, objOf,
      List.map_cons, List.filterMap_cons] at ih ⊢
    rw [show jsFalsy (Json.str kv.2) = kv.2.isEmpty from rfl,
      show jsToString (Json.str kv.2) = kv.2 from rfl]
    split <;> simp_all

/-- C3: for every configuration accepted by `validateSetupConfig` and every
optional export allow-list, every command produced by
`generateExportCommands` parses against the strict `export NAME="VALUE"`
pattern, and `validateExportCommands` accepts the whole generated list. -/
theorem C3_synthesizer_shape_invariant (shell : Option Str)
    (cfg : List (Str × Str)) (keys : Option (List Str))
    (hv : (validateSetupConfig shell cfg).isValid = true) :
    (∀ cmd ∈ generateExportCommands cfg keys, ∃ nm vl,
      parseExportCommand cmd = some (nm, vl) ∧ cmd = mkExportCommand nm vl) ∧
    (validateExportCommands shell (generateExportCommands cfg keys)).isValid
      = true := by
  rw [validateSetupConfig] at hv
  constructor
  · intro cmd hcmd
    rw [generateExportCommands_eq_json] at hcmd
    obtain ⟨kv, hmem, hf, rfl⟩ :=
      mem_generateExportCommandsJson (objOf cfg) keys cmd hcmd
    rw [objOf] at hmem
    have hent := (validateEntries_isValid_iff shell _).mp hv kv hmem
    obtain ⟨hname, _, _, hinj, _⟩ := entryErrors_decomp shell kv.1 kv.2 hf hent
    have hsn := validEnvVarName_not_serviceNames kv.1 hname
    have hesc := checkShellInjection_nil_escaped shell (jsToString kv.2) kv.1 hsn hinj
    have hqb := escapeForFamily_no_quote (shellFamily shell) (jsToString kv.2) hesc
    exact ⟨kv.1, jsToString kv.2,
      parseExportCommand_mk kv.1 (jsToString kv.2) hname hqb.1, rfl⟩
  · rw [generateExportCommands_eq_json]
    exact generated_commands_valid shell (objOf cfg) keys (by rw [objOf]; exact hv)

/-- C3 witness: a concrete valid two-entry configuration synthesizes commands
that parse and validate. -/
theorem C3_synthesizer_shape_invariant_witness :
    (∀ cmd ∈ generateExportCommands
        [(lit "FASTLY_TOKEN", lit "tok-123"), (lit "FASTLY_PREVIEW_URL", [])] none,
      ∃ nm vl, parseExportCommand cmd = some (nm, vl) ∧
        cmd = mkExportCommand nm vl) ∧
    (validateExportCommands none (generateExportCommands
        [(lit "FASTLY_TOKEN", lit "tok-123"), (lit "FASTLY_PREVIEW_URL", [])]
        none)).isValid = true :=
  C3_synthesizer_shape_invariant none
    [(lit "FASTLY_TOKEN", lit "tok-123"), (lit "FASTLY_PREVIEW_URL", [])] none
    (by decide)

/-- C1 counterexample: a single entry with a valid name and a 1001-character
alphanumeric value meets every hypothesis of the round-trip claim (naming
contract, no security-pattern hits, conforming role format), yet
decode∘encode fails because of the validator's 1000-character length rule,
which the claim omits. -/
theorem C1_counterexample :
    (([(lit "FASTLY_SETUP", List.replicate 1001 'a')].map Prod.fst).Nodup) ∧
    (∀ kv ∈ [(lit "FASTLY_SETUP", List.replicate 1001 'a')],
      validEnvVarName kv.1 = true) ∧
    (∀ kv ∈ [(lit "FASTLY_SETUP", List.replicate 1001 'a')], kv.2 ≠ [] →
      checkDangerousPatterns kv.2 kv.1 = [] ∧
      checkShellInjection none kv.2 kv.1 = [] ∧
      validateFieldFormat kv.1 kv.2 = []) ∧
    decodeSetupString none
        (encodeSetupString [(lit "FASTLY_SETUP", List.replicate 1001 'a')]) ≠
      Except.ok (Json.obj (objOf [(lit "FASTLY_SETUP", List.replicate 1001 'a')])) := by
  have hmem : ∀ c ∈ List.replicate 1001 'a', c = 'a' :=
    fun c hc => List.eq_of_mem_replicate hc
  have hany : ∀ (p : Char → Bool), p 'a' = false →
      (List.replicate 1001 'a').any p = false := by
    intro p hp
    apply any_false_of_all
    intro c hc
    rw [hmem c hc]
    exact hp
  have hnosub : ∀ (needle : Str) (c0 : Char), c0 ∈ needle → c0 ≠ 'a' →
      containsSubstr (List.replicate 1001 'a') needle = false := by
    intro needle c0 hc0 hc0a
    by_contra hcs
    simp only [Bool.not_eq_false] at hcs
    exact hc0a (List.eq_of_mem_replicate
      (containsSubstr_mem _ _ hcs c0 hc0))
  have hdang : checkDangerousPatterns (List.replicate 1001 'a')
      (lit "FASTLY_SETUP") = [] := by
    have h1 : (List.replicate 1001 'a').any dangerousChar = false := hany _ (by decide)
    have h2 : hasCommandSubstitution (List.replicate 1001 'a') = false := by
      rw [hasCommandSubstitution, hnosub (lit "$(") '$' (by decide) (by decide)]
      rw [hasBacktickPair,
        splitOnLineTerm_no_term _ (fun c hc => by rw [hmem c hc]; decide)]
      simp only [List.any_cons, List.any_nil, Bool.or_false, Bool.false_or]
      rw [List.countP_eq_zero.mpr (fun c hc => by rw [hmem c hc]; decide)]
      decide
    have h3 : hasRedirection (List.replicate 1001 'a') = false := by
      rw [hasRedirection, hnosub (lit ">>") '>' (by decide) (by decide),
        hnosub (lit "<<") '<' (by decide) (by decide),
        hnosub (lit ">&") '>' (by decide) (by decide),
        hnosub (lit "<&") '<' (by decide) (by decide)]
      rfl
    have h4 : hasPathTraversal (List.replicate 1001 'a') = false := by
      rw [hasPathTraversal, hnosub (lit "../") '.' (by decide) (by decide)]
    have h5 : hasNullBytes (List.replicate 1001 'a') = false := by
      rw [hasNullBytes, strHasChar]
      exact hany _ (by decide)
    have h6 : hasControlCharacters (List.replicate 1001 'a') = false := by
      rw [hasControlCharacters]
      exact hany _ (by decide)
    simp only [checkDangerousPatterns]
    rw [if_neg (show ¬(containsSubstr (lit "FASTLY_SETUP")
        (lit "ServiceNames") = true) by decide)]
    rw [if_neg (by rw [h1]; decide), if_neg (by rw [h2]; decide),
      if_neg (by rw [h3]; decide), if_neg (by rw [h4]; decide),
      if_neg (by rw [h5]; decide), if_neg (by rw [h6]; decide)]
    rfl
  have hinj : checkShellInjection none (List.replicate 1001 'a')
      (lit "FASTLY_SETUP") = [] := by
    have hesc : escapeForFamily (shellFamily none) (List.replicate 1001 'a') =
        List.replicate 1001 'a' := by
      rw [show shellFamily none = ShellFamily.bash from rfl]
      exact escapeChars_id _ _ (fun c hc => by rw [hmem c hc]; decide)
    simp only [checkShellInjection, hesc]
    rw [if_neg (fun hcon => hcon.1 rfl), if_neg (fun hcon => hcon.1 rfl)]
    rfl
  have hfmt : validateFieldFormat (lit "FASTLY_SETUP")
      (List.replicate 1001 'a') = [] := by
    rw [validateFieldFormat, if_neg (by decide), if_neg (by decide),
      if_neg (by decide)]
  have hfal : jsFalsy (Json.str (List.replicate 1001 'a')) = false := by
    rw [show jsFalsy (Json.str (List.replicate 1001 'a')) =
      (List.replicate 1001 'a').isEmpty from rfl]
    by_contra hcon
    simp only [Bool.not_eq_false] at hcon
    have hnil := List.isEmpty_iff.mp hcon
    have hlen1 := congrArg List.length hnil
    rw [List.length_replicate] at hlen1
    simp at hlen1
  have hnodup : (([(lit "FASTLY_SETUP",
      List.replicate 1001 'a')].map Prod.fst)).Nodup := by
    rw [List.map_cons, List.map_nil]
    exact List.nodup_singleton _
  refine ⟨hnodup, ?_, ?_, ?_⟩
  · intro kv hkv
    simp only [List.mem_singleton] at hkv
    subst hkv
    decide
  · intro kv hkv hne
    simp only [List.mem_singleton] at hkv
    subst hkv
    exact ⟨hdang, hinj, hfmt⟩
  · have hval : (validateSetupConfig none
        [(lit "FASTLY_SETUP", List.replicate 1001 'a')]).isValid = false := by
      by_contra hv
      simp only [Bool.not_eq_false] at hv
      rw [validateSetupConfig] at hv
      have hone := (validateEntries_isValid_iff none _).mp hv
        (lit "FASTLY_SETUP", Json.str (List.replicate 1001 'a'))
        (List.mem_map.mpr ⟨_, List.mem_singleton_self _, rfl⟩)
      obtain ⟨_, hlen, _, _, _⟩ := entryErrors_decomp none _ _ hfal hone
      rw [show jsLengthGt1000 (Json.str (List.replicate 1001 'a')) =
        decide (1000 < utf16Length (List.replicate 1001 'a')) from rfl,
        utf16Length_eq_length _ (fun c hc => by
          rw [List.eq_of_mem_replicate hc]; decide),
        List.length_replicate] at hlen
      exact absurd hlen (by decide)
    rw [decode_encode none _ hnodup, if_neg (by simp only [hval]; decide)]
    intro hcontra
    exact Except.noConfusion hcontra

/-- C1 amended: with the additional per-entry hypothesis that non-empty
values are at most 1000 characters long, every configuration meeting the
claim's naming, security and format conditions round-trips losslessly
through encode and decode, and the decoded object determines the original
key/value list exactly (empty-string values included, absent keys absent). -/
theorem C1_roundtrip_amended (shell : Option Str) (cfg : List (Str × Str))
    (hnd : (cfg.map Prod.fst).Nodup)
    (hkeys : ∀ kv ∈ cfg, validEnvVarName kv.1 = true)
    (hvals : ∀ kv ∈ cfg, kv.2 ≠ [] →
      utf16Length kv.2 ≤ 1000 ∧ checkDangerousPatterns kv.2 kv.1 = [] ∧
      checkShellInjection shell kv.2 kv.1 = [] ∧
      validateFieldFormat kv.1 kv.2 = []) :
    decodeSetupString shell (encodeSetupString cfg) =
      Except.ok (Json.obj (objOf cfg)) ∧
    (objOf cfg).map (fun kv => (kv.1, jsToString kv.2)) = cfg := by
  constructor
  · rw [decode_encode shell cfg hnd]
    rw [if_pos ?hvalid]
    case hvalid =>
      rw [validateSetupConfig]
      apply (validateEntries_isValid_iff shell _).mpr
      intro kv hkv
      obtain ⟨kv0, hkv0, rfl⟩ := List.mem_map.mp hkv
      exact entryErrors_str_nil shell kv0.1 kv0.2 (hkeys kv0 hkv0) (hvals kv0 hkv0)
  · rw [objOf, List.map_map]
    have : ((fun kv => (kv.1, jsToString kv.2)) ∘
        fun kv : Str × Str => (kv.1, Json.str kv.2)) = id := by
      funext kv
      rfl
    rw [this, List.map_id]

/-- C1 amended witness: a concrete two-entry configuration with an
empty-string value round-trips exactly. -/
theorem C1_roundtrip_amended_witness :
    decodeSetupString none (encodeSetupString
        [(lit "FASTLY_TOKEN", lit "tok-123"), (lit "FASTLY_PREVIEW_URL", [])]) =
      Except.ok (Json.obj (objOf
        [(lit "FASTLY_TOKEN", lit "tok-123"), (lit "FASTLY_PREVIEW_URL", [])])) ∧
    (objOf [(lit "FASTLY_TOKEN", lit "tok-123"),
        (lit "FASTLY_PREVIEW_URL", [])]).map (fun kv => (kv.1, jsToString kv.2)) =
      [(lit "FASTLY_TOKEN", lit "tok-123"), (lit "FASTLY_PREVIEW_URL", [])] :=
  C1_roundtrip_amended none
    [(lit "FASTLY_TOKEN", lit "tok-123"), (lit "FASTLY_PREVIEW_URL", [])]
    (by decide) (by decide) (by decide)

theorem displayedKeys_sub (entries : List (Str × Json)) (env : List (Str × Str)) :
    ∀ k ∈ displayedKeys (analyzeSetupChanges entries env),
      k ∈ entries.map Prod.fst := by
  intro k hk
  simp only [displayedKeys, analyzeSetupChanges, List.mem_append] at hk
  rcases hk with (hk | hk) | hk <;>
  · obtain ⟨p, hp, rfl⟩ := List.mem_map.mp hk
    obtain ⟨kv, hkv, hf⟩ := List.mem_filterMap.mp hp
    refine List.mem_map.mpr ⟨kv, hkv, ?_⟩
    split at hf
    all_goals try exact Option.noConfusion hf
    all_goals try split at hf
    all_goals try exact Option.noConfusion hf
    all_goals try split at hf
    all_goals try exact Option.noConfusion hf
    all_goals try split at hf
    all_goals try exact Option.noConfusion hf
    all_goals try (injection hf with hp2; rw [← hp2])

/-- C8 counterexample: with a non-token existing variable forcing the
conflict path, the orchestrator's printed diff (`shownKeys`) includes the
changed credential key `FASTLY_TOKEN`, so token-shaped keys are not omitted
from the printed summary. -/
theorem C8_counterexample :
    isTokenKey (lit "FASTLY_TOKEN") = true ∧
    lit "FASTLY_TOKEN" ∈ (executeSetup none
      (encodeSetupString [(lit "FASTLY_TOKEN", lit "new")]) ⟨false, false, none⟩
      [(lit "FASTLY_TOKEN", lit "old"), (lit "FASTLY_DEV_SERVICE_IDS", lit "x")]
      (some [])).shownKeys := by
  have hdec : decodeSetupString none
      (encodeSetupString [(lit "FASTLY_TOKEN", lit "new")]) =
      Except.ok (Json.obj (objOf [(lit "FASTLY_TOKEN", lit "new")])) := by
    rw [decode_encode none _ (by decide), if_pos (by decide)]
  have hch : (analyzeSetupChanges
      ((jsEntries (Json.obj (objOf [(lit "FASTLY_TOKEN", lit "new")]))).getD [])
      [(lit "FASTLY_TOKEN", lit "old"),
        (lit "FASTLY_DEV_SERVICE_IDS", lit "x")]).changedVars ≠ [] := by
    rw [show (analyzeSetupChanges
        ((jsEntries (Json.obj (objOf [(lit "FASTLY_TOKEN", lit "new")]))).getD [])
        [(lit "FASTLY_TOKEN", lit "old"),
          (lit "FASTLY_DEV_SERVICE_IDS", lit "x")]).changedVars =
      [(lit "FASTLY_TOKEN", lit "old", lit "new")] from rfl]
    exact List.cons_ne_nil _ _
  refine ⟨by decide, ?_⟩
  simp only [executeSetup, hdec]
  rw [if_pos (by exact ⟨by trivial, by trivial, hch⟩)]
  exact List.mem_singleton_self (lit "FASTLY_TOKEN")

/-- C8 amended: the diff engine's `existingVars` enumeration indeed never
contains a token/credential key, and every key the orchestrator's diff can
print comes from the proposed (decoded) configuration itself — but changed or
unchanged token keys of the proposal are printed, not omitted. -/
theorem C8_no_credential_leakage_amended (entries : List (Str × Json))
    (env : List (Str × Str)) :
    (∀ k ∈ (analyzeSetupChanges entries env).existingVars, isTokenKey k = false) ∧
    (∀ k ∈ displayedKeys (analyzeSetupChanges entries env),
      k ∈ entries.map Prod.fst) ∧
    (∀ (shell : Option Str) (enc : Str) (opts : SetupOptions) (file : Option Str)
      (config : Json) (k : Str), decodeSetupString shell enc = .ok config →
      k ∈ (executeSetup shell enc opts env file).shownKeys →
      k ∈ ((jsEntries config).getD []).map Prod.fst) := by
  refine ⟨?_, displayedKeys_sub entries env, ?_⟩
  · intro k hk
    simp only [analyzeSetupChanges] at hk
    obtain ⟨kv, hkv, rfl⟩ := List.mem_map.mp hk
    have hc := (List.mem_filter.mp hkv).2
    simp only [Bool.and_eq_true, Bool.not_eq_true'] at hc
    obtain ⟨⟨⟨⟨_, _⟩, h3⟩, h4⟩, h5⟩ := hc
    simp [isTokenKey, h3, h4, h5]
  · intro shell enc opts file config k hok hk
    simp only [executeSetup, hok] at hk
    split at hk
    · exact displayedKeys_sub _ env k hk
    · split at hk
      · split at hk
        · exact displayedKeys_sub _ env k hk
        · simp at hk
      · split at hk
        · split at hk
          · exact displayedKeys_sub _ env k hk
          · simp at hk
        · split at hk
          · exact displayedKeys_sub _ env k hk
          · simp at hk

/-- C8 amended witness: concrete instantiation on a one-entry proposal and a
token-bearing environment. -/
theorem C8_no_credential_leakage_amended_witness :
    (∀ k ∈ (analyzeSetupChanges (objOf [(lit "FASTLY_A", lit "b")])
      [(lit "FASTLY_TOKEN", lit "x")]).existingVars, isTokenKey k = false) ∧
    (∀ k ∈ displayedKeys (analyzeSetupChanges (objOf [(lit "FASTLY_A", lit "b")])
      [(lit "FASTLY_TOKEN", lit "x")]),
      k ∈ (objOf [(lit "FASTLY_A", lit "b")]).map Prod.fst) ∧
    (∀ (shell : Option Str) (enc : Str) (opts : SetupOptions) (file : Option Str)
      (config : Json) (k : Str), decodeSetupString shell enc = .ok config →
      k ∈ (executeSetup shell enc opts [(lit "FASTLY_TOKEN", lit "x")]
        file).shownKeys →
      k ∈ ((jsEntries config).getD []).map Prod.fst) :=
  C8_no_credential_leakage_amended (objOf [(lit "FASTLY_A", lit "b")])
    [(lit "FASTLY_TOKEN", lit "x")]

/-- C7 counterexample: the environment holds only the token key
`FASTLY_TOKEN`, which `analyzeSetupChanges` excludes from `existingVars`, so
`hasExisting` is false; a changed entry exists and force is off, yet
`executeSetup` does not stop — it proceeds to synthesis and writes the shell
file. -/
theorem C7_counterexample :
    (analyzeSetupChanges (objOf [(lit "FASTLY_TOKEN", lit "new")])
        [(lit "FASTLY_TOKEN", lit "old")]).changedVars ≠ [] ∧
    (executeSetup none (encodeSetupString [(lit "FASTLY_TOKEN", lit "new")])
        ⟨true, false, none⟩ [(lit "FASTLY_TOKEN", lit "old")]
        (some [])).fileWrote = true := by
  have hdec : decodeSetupString none
      (encodeSetupString [(lit "FASTLY_TOKEN", lit "new")]) =
      Except.ok (Json.obj (objOf [(lit "FASTLY_TOKEN", lit "new")])) := by
    rw [decode_encode none _ (by decide), if_pos (by decide)]
  constructor
  · rw [show (analyzeSetupChanges (objOf [(lit "FASTLY_TOKEN", lit "new")])
        [(lit "FASTLY_TOKEN", lit "old")]).changedVars =
      [(lit "FASTLY_TOKEN", lit "old", lit "new")] from rfl]
    exact List.cons_ne_nil _ _
  · simp only [executeSetup, hdec]
    rfl

/-- C7 amended: the conflict stop fires only when additionally some existing
non-token variable is present (`hasExisting`); in that case `executeSetup`
without force shows the diff and stops with nothing synthesized and the file
untouched, while with force it always proceeds to synthesis, and a valid
synthesized command list is then materialized through `writeToShellConfig`
when execution is allowed. -/
theorem C7_conflict_stop_amended (shell : Option Str) (enc : Str)
    (opts : SetupOptions) (env : List (Str × Str)) (file : Option Str)
    (config : Json) (hok : decodeSetupString shell enc = .ok config) :
    ((analyzeSetupChanges ((jsEntries config).getD []) env).hasExisting = true →
     opts.force = false →
     (analyzeSetupChanges ((jsEntries config).getD []) env).changedVars ≠ [] →
     executeSetup shell enc opts env file =
       { exitCode := none, diffShown := true,
         shownKeys := displayedKeys (analyzeSetupChanges
           ((jsEntries config).getD []) env),
         synthesized := none, commandsPrinted := false, fileAfter := file,
         fileWrote := false, markerWarned := false }) ∧
    (opts.force = true →
     (executeSetup shell enc opts env file).synthesized =
       some (generateExportCommandsJson ((jsEntries config).getD [])
         opts.exportKeys)) ∧
    (opts.force = true → opts.allowExecution = true →
     (validateExportCommands shell (generateExportCommandsJson
       ((jsEntries config).getD []) opts.exportKeys)).isValid = true →
     (executeSetup shell enc opts env file).fileWrote =
       (writeToShellConfig file (generateExportCommandsJson
         ((jsEntries config).getD []) opts.exportKeys)).wrote ∧
     (executeSetup shell enc opts env file).fileAfter =
       (writeToShellConfig file (generateExportCommandsJson
         ((jsEntries config).getD []) opts.exportKeys)).fileAfter) := by
  refine ⟨?_, ?_, ?_⟩
  · intro h1 h2 h3
    simp only [executeSetup, hok]
    rw [if_pos ⟨h1, h2, h3⟩]
  · intro hf
    simp only [executeSetup, hok]
    rw [if_neg (fun hcon => by rw [hf] at hcon; exact Bool.noConfusion hcon.2.1)]
    split
    · rfl
    · split
      · rfl
      · rfl
  · intro hf ha hcv
    simp only [executeSetup, hok]
    rw [if_neg (fun hcon => by rw [hf] at hcon; exact Bool.noConfusion hcon.2.1)]
    rw [if_neg (by rw [hcv]; decide), if_neg (by rw [ha]; decide)]
    exact ⟨rfl, rfl⟩

/-- C7 amended witness: a concrete conflict (existing non-token variable with
a changed value, no force) stops with the diff shown and no write. -/
theorem C7_conflict_stop_amended_witness :
    executeSetup none (encodeSetupString [(lit "FASTLY_DEV_SERVICE_IDS", lit "new")])
        ⟨false, false, none⟩ [(lit "FASTLY_DEV_SERVICE_IDS", lit "old")] (some []) =
      { exitCode := none, diffShown := true,
        shownKeys := displayedKeys (analyzeSetupChanges
          ((jsEntries (Json.obj (objOf
            [(lit "FASTLY_DEV_SERVICE_IDS", lit "new")]))).getD [])
          [(lit "FASTLY_DEV_SERVICE_IDS", lit "old")]),
        synthesized := none, commandsPrinted := false, fileAfter := some [],
        fileWrote := false, markerWarned := false } :=
by
  have hch : (analyzeSetupChanges ((jsEntries (Json.obj (objOf
        [(lit "FASTLY_DEV_SERVICE_IDS", lit "new")]))).getD [])
      [(lit "FASTLY_DEV_SERVICE_IDS", lit "old")]).changedVars ≠ [] := by
    rw [show (analyzeSetupChanges ((jsEntries (Json.obj (objOf
          [(lit "FASTLY_DEV_SERVICE_IDS", lit "new")]))).getD [])
        [(lit "FASTLY_DEV_SERVICE_IDS", lit "old")]).changedVars =
      [(lit "FASTLY_DEV_SERVICE_IDS", lit "old", lit "new")] from rfl]
    exact List.cons_ne_nil _ _
  exact (C7_conflict_stop_amended none
    (encodeSetupString [(lit "FASTLY_DEV_SERVICE_IDS", lit "new")])
    ⟨false, false, none⟩ [(lit "FASTLY_DEV_SERVICE_IDS", lit "old")] (some [])
    (Json.obj (objOf [(lit "FASTLY_DEV_SERVICE_IDS", lit "new")]))
    (by rw [decode_encode none _ (by decide), if_pos (by decide)])).1
    (by rfl) rfl hch

theorem splitOnChar_ne_nil (sep : Char) (s : Str) : splitOnChar sep s ≠ [] := by
  cases s with
  | nil => simp [splitOnChar]
  | cons c rest =>
    rw [splitOnChar]
    split
    · simp
    · split <;> simp

theorem joinWith_cons_of_ne (sep : Char) (a : Str) (xs : List Str) (h : xs ≠ []) :
    joinWith sep (a :: xs) = a ++ sep :: joinWith sep xs := by
  cases xs with
  | nil => exact absurd rfl h
  | cons b t =>
    simp [joinWith, List.intercalate, List.intersperse_cons_cons, List.join_cons]

theorem splitOnChar_append_sep (sep : Char) (a b : Str) :
    splitOnChar sep (a ++ sep :: b) = splitOnChar sep a ++ splitOnChar sep b := by
  induction a with
  | nil =>
    simp [splitOnChar]
  | cons c t ih =>
    rw [List.cons_append, splitOnChar]
    by_cases hc : c = sep
    · rw [if_pos hc, ih, splitOnChar, if_pos hc, List.cons_append]
    · rw [if_neg hc, ih, splitOnChar, if_neg hc]
      obtain ⟨h, tt, hh⟩ : ∃ h tt, splitOnChar sep t = h :: tt := by
        cases hs : splitOnChar sep t with
        | nil => exact absurd hs (splitOnChar_ne_nil sep t)
        | cons h tt => exact ⟨h, tt, rfl⟩
      rw [hh, List.cons_append]
      rfl

theorem splitOnChar_no_sep (sep : Char) (a : Str) (h : ∀ c ∈ a, ¬(c = sep)) :
    splitOnChar sep a = [a] := by
  induction a with
  | nil => rfl
  | cons c t ih =>
    rw [splitOnChar, if_neg (h c (by simp)),
      ih (fun c2 hc2 => h c2 (by simp [hc2]))]

theorem splitOnChar_joinWith (sep : Char) (X : List Str)
    (h : ∀ l ∈ X, ∀ c ∈ l, ¬(c = sep)) (hne : X ≠ []) :
    splitOnChar sep (joinWith sep X) = X := by
  induction X with
  | nil => exact absurd rfl hne
  | cons a xs ih =>
    cases xs with
    | nil =>
      rw [show joinWith sep [a] = a from by simp [joinWith, List.intercalate]]
      exact splitOnChar_no_sep sep a (h a (by simp))
    | cons b t =>
      rw [joinWith_cons_of_ne sep a (b :: t) (by simp),
        splitOnChar_append_sep, splitOnChar_no_sep sep a (h a (by simp)),
        ih (fun l hl => h l (List.mem_cons_of_mem a hl)) (by simp)]
      rfl

theorem containsSubstr_cons_of (x : Char) (t needle : Str)
    (h : containsSubstr t needle = true) : containsSubstr (x :: t) needle = true := by
  rw [containsSubstr]
  split
  · rfl
  · exact h

theorem shellConfigBlock_eq (cmds : List Str) :
    shellConfigBlock cmds =
      '\n' :: (shellConfigMarker ++ '\n' ::
        joinWith '\n' (cmds ++ [lit "# End " ++ shellConfigMarker] ++ [[]])) := by
  rw [shellConfigBlock]
  rw [show ([[]] ++ [shellConfigMarker] ++ cmds ++
      [lit "# End " ++ shellConfigMarker] ++ [[]] : List Str) =
    [] :: shellConfigMarker ::
      (cmds ++ [lit "# End " ++ shellConfigMarker] ++ [[]]) from by simp]
  rw [joinWith_cons_of_ne _ _ _ (by simp),
    joinWith_cons_of_ne _ _ _ (by simp)]
  rfl

theorem shellConfigBlock_contains_marker (cmds : List Str) :
    containsSubstr (shellConfigBlock cmds) shellConfigMarker = true := by
  rw [shellConfigBlock_eq]
  exact containsSubstr_cons_of _ _ _ (containsSubstr_self_append _ _)

/-- C9: writing to a config file that lacks the marker appends the
marker-delimited block; a second write of the same commands is a no-op with a
warning, and the resulting file has exactly one marker line. -/
theorem C9_idempotent_write (content : Str) (cmds : List Str)
    (hcf : containsSubstr content shellConfigMarker = false)
    (hlines : ∀ l ∈ splitOnChar '\n' content, l ≠ shellConfigMarker)
    (hcmds : ∀ cmd ∈ cmds, cmd ≠ shellConfigMarker ∧ ∀ c ∈ cmd, ¬(c = '\n')) :
    writeToShellConfig (some content) cmds =
      { fileAfter := some (content ++ shellConfigBlock cmds), warned := false,
        wrote := true } ∧
    writeToShellConfig (some (content ++ shellConfigBlock cmds)) cmds =
      { fileAfter := some (content ++ shellConfigBlock cmds), warned := true,
        wrote := false } ∧
    (splitOnChar '\n' (content ++ shellConfigBlock cmds)).countP
      (fun l => l = shellConfigMarker) = 1 := by
  have h2 : containsSubstr (content ++ shellConfigBlock cmds) shellConfigMarker
      = true :=
    containsSubstr_append_right _ _ _ (shellConfigBlock_contains_marker cmds)
  refine ⟨?_, ?_, ?_⟩
  · rw [writeToShellConfig, if_neg (by rw [hcf]; decide)]
  · rw [writeToShellConfig, if_pos h2]
  · have hc0 : (splitOnChar '\n' content).countP
        (fun l => l = shellConfigMarker) = 0 :=
      List.countP_eq_zero.mpr (fun l hl => by
        simp only [decide_eq_true_eq]
        exact hlines l hl)
    have hc2 : cmds.countP (fun l => l = shellConfigMarker) = 0 :=
      List.countP_eq_zero.mpr (fun l hl => by
        simp only [decide_eq_true_eq]
        exact (hcmds l hl).1)
    rw [shellConfigBlock_eq, splitOnChar_append_sep, splitOnChar_append_sep,
      splitOnChar_no_sep '\n' shellConfigMarker (by decide),
      splitOnChar_joinWith '\n' _ ?hparts (by simp)]
    case hparts =>
      intro l hl
      rcases List.mem_append.mp hl with hl | hl
      · rcases List.mem_append.mp hl with hl | hl
        · exact (hcmds l hl).2
        · simp only [List.mem_singleton] at hl
          subst hl
          decide
      · simp only [List.mem_singleton] at hl
        subst hl
        simp
    have hc1 : ([shellConfigMarker] : List Str).countP
        (fun l => l = shellConfigMarker) = 1 := by decide
    have hc3 : ([lit "# End " ++ shellConfigMarker] : List Str).countP
        (fun l => l = shellConfigMarker) = 0 := by decide
    have hc4 : ([([] : Str)] : List Str).countP
        (fun l => l = shellConfigMarker) = 0 := by decide
    simp only [List.countP_append, hc0, hc1, hc2, hc3, hc4]

/-- C9 witness: a concrete marker-free file and one command; the first write
appends, the second warns and leaves the file unchanged, and the marker line
occurs exactly once. -/
theorem C9_idempotent_write_witness :
    writeToShellConfig (some (lit "# stuff")) [lit "export FASTLY_A=\"b\""] =
      { fileAfter := some (lit "# stuff" ++
          shellConfigBlock [lit "export FASTLY_A=\"b\""]), warned := false,
        wrote := true } ∧
    writeToShellConfig (some (lit "# stuff" ++
        shellConfigBlock [lit "export FASTLY_A=\"b\""]))
      [lit "export FASTLY_A=\"b\""] =
      { fileAfter := some (lit "# stuff" ++
          shellConfigBlock [lit "export FASTLY_A=\"b\""]), warned := true,
        wrote := false } ∧
    (splitOnChar '\n' (lit "# stuff" ++
        shellConfigBlock [lit "export FASTLY_A=\"b\""])).countP
      (fun l => l = shellConfigMarker) = 1 :=
  C9_idempotent_write (lit "# stuff") [lit "export FASTLY_A=\"b\""]
    (by decide) (by decide) (by decide)

end Bleurgh